import Mathlib

/-!
# Verification of the il-gaemi date utility library

Shallow embedding of the library's business-day calculator
(`src/date/index.ts`) and flexible date parser / formatter
(`src/format/index.ts`), together with proofs of the specification's
claims about them.

The underlying date algebra (`Temporal.PlainDate` and friends from
`@js-temporal/polyfill`) is modelled by an explicit proleptic Gregorian
calendar on natural-number years `>= 1`; `Temporal.PlainDate.add({days:1})`
and `subtract({days:1})` are modelled by the structural functions
`nextDay` / `prevDay`, and ISO weekday / date ordering through the
standard rata-die day count `toRd`.
-/

set_option maxHeartbeats 1000000

/-- Model of `Temporal.PlainDate`: a calendar date (year, month 1-12, day).
Years are restricted to the proleptic Gregorian years `>= 1`
(the library's claims never exercise year 0 or negative years). -/
structure PlainDate where
  year : Nat
  month : Nat
  day : Nat
deriving DecidableEq, Repr

/-- Gregorian leap-year rule, as resolved by the ISO 8601 calendar that
`Temporal.PlainDate` implements. -/
def isLeapYear (y : Nat) : Bool :=
  (y % 4 == 0 && y % 100 != 0) || y % 400 == 0

/-- Number of days in a month of the ISO calendar (0 for out-of-range months). -/
def daysInMonth (y m : Nat) : Nat :=
  if m = 1 then 31
  else if m = 2 then (if isLeapYear y then 29 else 28)
  else if m = 3 then 31
  else if m = 4 then 30
  else if m = 5 then 31
  else if m = 6 then 30
  else if m = 7 then 31
  else if m = 8 then 31
  else if m = 9 then 30
  else if m = 10 then 31
  else if m = 11 then 30
  else if m = 12 then 31
  else 0

/-- Days of year `y` that precede month `m` (0 for January). -/
def daysBeforeMonth (y : Nat) : Nat → Nat
  | 0 => 0
  | Nat.succ m => daysBeforeMonth y m + daysInMonth y m

/-- Length of year `y` in days. -/
def yearLength (y : Nat) : Nat :=
  if isLeapYear y then 366 else 365

/-- Number of days lying strictly before January 1 of year `y`
(counted from the epoch 0001-01-01). -/
def yearOffset (y : Nat) : Nat :=
  365 * (y - 1) + (y - 1) / 4 + (y - 1) / 400 - (y - 1) / 100

/-- Rata-die day number of a date: 0001-01-01 has number 1.  This is the
day count underlying `Temporal.PlainDate` comparison and `since(...).days`
on valid dates. -/
def toRd (d : PlainDate) : Nat :=
  yearOffset d.year + daysBeforeMonth d.year d.month + d.day

/-- ISO weekday (1 = Monday .. 7 = Sunday), the model of
`Temporal.PlainDate.prototype.dayOfWeek`; 0001-01-01 is a Monday in the
proleptic Gregorian calendar. -/
def dayOfWeek (d : PlainDate) : Nat :=
  (toRd d - 1) % 7 + 1

/-- The date is an actual ISO calendar date (in the modelled year range). -/
def validDate (d : PlainDate) : Prop :=
  1 ≤ d.year ∧ 1 ≤ d.month ∧ d.month ≤ 12 ∧ 1 ≤ d.day ∧
    d.day ≤ daysInMonth d.year d.month

instance (d : PlainDate) : Decidable (validDate d) := by
  unfold validDate
  infer_instance

/-- Effect of `Temporal.PlainDate.add({ days: 1 })` on a valid date. -/
def nextDay (d : PlainDate) : PlainDate :=
  if d.day < daysInMonth d.year d.month then ⟨d.year, d.month, d.day + 1⟩
  else if d.month < 12 then ⟨d.year, d.month + 1, 1⟩
  else ⟨d.year + 1, 1, 1⟩

/-- Effect of `Temporal.PlainDate.subtract({ days: 1 })` on a valid date
after 0001-01-01. -/
def prevDay (d : PlainDate) : PlainDate :=
  if 1 < d.day then ⟨d.year, d.month, d.day - 1⟩
  else if 1 < d.month then ⟨d.year, d.month - 1, daysInMonth d.year (d.month - 1)⟩
  else ⟨d.year - 1, 12, 31⟩

/-- `Temporal.PlainDate.add({ days: n })`: `n`-fold day increment. -/
def addDays (d : PlainDate) : Nat → PlainDate
  | 0 => d
  | Nat.succ n => addDays (nextDay d) n

/-- `Temporal.PlainDate.subtract({ days: n })`: `n`-fold day decrement. -/
def subDays (d : PlainDate) : Nat → PlainDate
  | 0 => d
  | Nat.succ n => subDays (prevDay d) n

/-- The decimal digit character for `n < 10`. -/
def digitChar (n : Nat) : Char :=
  if n = 0 then '0'
  else if n = 1 then '1'
  else if n = 2 then '2'
  else if n = 3 then '3'
  else if n = 4 then '4'
  else if n = 5 then '5'
  else if n = 6 then '6'
  else if n = 7 then '7'
  else if n = 8 then '8'
  else '9'

/-- Fuel-indexed digit expansion (structural recursion so that concrete
values reduce inside the kernel); `fuel` is any strict upper bound. -/
def natDigitsAux : Nat → Nat → List Char
  | 0, _ => []
  | Nat.succ fuel, n =>
    if n < 10 then [digitChar n]
    else natDigitsAux fuel (n / 10) ++ [digitChar (n % 10)]

/-- Decimal digit characters of `n`, most significant first: the model of
JavaScript `Number.prototype.toString()` on a natural number. -/
def natDigits (n : Nat) : List Char :=
  natDigitsAux (n + 1) n

/-- Numeric value of a digit character. -/
def digitVal (c : Char) : Nat :=
  c.toNat - 48

/-- Value of a string of decimal digits, the model of JavaScript
`parseInt` on all-digit strings. -/
def natFromDigits (l : List Char) : Nat :=
  l.foldl (fun acc c => 10 * acc + digitVal c) 0

/-- Left-pad a digit list with zeros to width `w`: the model of
JavaScript `String.prototype.padStart(w, "0")`. -/
def padDigits (w : Nat) (l : List Char) : List Char :=
  List.replicate (w - l.length) '0' ++ l

/-- Zero-padded decimal rendering of `n` to width `w`. -/
def padNat (w n : Nat) : List Char :=
  padDigits w (natDigits n)

/-- Canonical calendar-date string of a `PlainDate`, the model of
`Temporal.PlainDate.prototype.toString()`: `YYYY-MM-DD`, with the year
widened to a signed six-digit form beyond 9999 as Temporal does. -/
def renderDate (d : PlainDate) : List Char :=
  (if d.year ≤ 9999 then padNat 4 d.year else '+' :: padNat 6 d.year) ++
    '-' :: padNat 2 d.month ++ '-' :: padNat 2 d.day

/-- `Temporal.PlainDate.prototype.toString()` as a `String`. -/
def PlainDate.render (d : PlainDate) : String :=
  String.mk (renderDate d)

example : PlainDate.render ⟨2024, 1, 15⟩ = "2024-01-15" := by decide
example : dayOfWeek ⟨2024, 1, 15⟩ = 1 := by decide
example : dayOfWeek ⟨2024, 1, 13⟩ = 6 := by decide
example : dayOfWeek ⟨2024, 2, 1⟩ = 4 := by decide
example : nextDay ⟨2023, 12, 31⟩ = ⟨2024, 1, 1⟩ := by decide
example : prevDay ⟨2024, 3, 1⟩ = ⟨2024, 2, 29⟩ := by decide

/-- Strict construction from year/month/day fields with range validation:
the model of `Temporal.PlainDate.from` when the value must be an actual
calendar date (string inputs are never constrained by Temporal). -/
def plainDateStrict (y m d : Nat) : Option PlainDate :=
  if 1 ≤ y ∧ 1 ≤ m ∧ m ≤ 12 ∧ 1 ≤ d ∧ d ≤ daysInMonth y m then
    some ⟨y, m, d⟩
  else none

/-- Model of `Temporal.PlainDate.from(string)` on the extended ISO date
form `YYYY-MM-DD` (the only string shape the library's claims exercise;
Temporal's further ISO 8601 string shapes are out of the modelled scope,
and scope hypotheses of the theorems record this). -/
def parseIsoDateChars (l : List Char) : Option PlainDate :=
  match l with
  | [y1, y2, y3, y4, '-', m1, m2, '-', d1, d2] =>
    if ([y1, y2, y3, y4, m1, m2, d1, d2].all Char.isDigit) then
      plainDateStrict (natFromDigits [y1, y2, y3, y4])
        (natFromDigits [m1, m2]) (natFromDigits [d1, d2])
    else none
  | _ => none

/-- `Temporal.PlainDate.from` on a `String` argument. -/
def PlainDate.fromString (s : String) : Option PlainDate :=
  parseIsoDateChars s.toList

/-- Clamp `n` into the closed interval `[lo, hi]`. -/
def clampNat (lo hi n : Nat) : Nat :=
  if n < lo then lo else if hi < n then hi else n

/-- Model of `Temporal.PlainDate.from({ year, month, day })` on a property
bag: Temporal's default `overflow: "constrain"` clamps the month into
1..12 and the day into the month's length instead of throwing. -/
def plainDateConstrain (y m d : Nat) : PlainDate :=
  let cm := clampNat 1 12 m
  ⟨y, cm, clampNat 1 (daysInMonth y cm) d⟩

/-- Model of the library's `Holiday` record (`src/types.ts`); the
optional `recurring` field defaults to the falsy `false`. -/
structure Holiday where
  date : String
  name : String
  recurring : Bool
deriving DecidableEq, Repr

/-- One step of the `holidayList.some(...)` callback in `isWorkday`
(`src/date/index.ts`): recurring holidays compare month+day of the parsed
holiday date, non-recurring ones compare the exact date string.  `none`
models the exception thrown when a recurring holiday's date string does
not parse. -/
def holidayMatch (d : PlainDate) (h : Holiday) : Option Bool :=
  if h.recurring then
    match PlainDate.fromString h.date with
    | some hd => some (hd.month == d.month && hd.day == d.day)
    | none => none
  else
    some (h.date == d.render)

/-- `holidayList.some(...)`: short-circuiting disjunction over the holiday
list, propagating a parse exception. -/
def anyHolidayMatch (d : PlainDate) : List Holiday → Option Bool
  | [] => some false
  | h :: t =>
    match holidayMatch d h with
    | some true => some true
    | some false => anyHolidayMatch d t
    | none => none

/-- `isWorkday` (`src/date/index.ts`): false on a non-working weekday,
else false when some holiday matches, else true.  The weekday test
short-circuits the holiday scan, exactly as in the source. -/
def isWorkday (d : PlainDate) (holidayList : List Holiday)
    (dayOffWeekdays : List Nat) : Option Bool :=
  if dayOffWeekdays.contains (dayOfWeek d) then some false
  else
    match anyHolidayMatch d holidayList with
    | some b => some (!b)
    | none => none

/-- The do-while search of `getNextWorkday`: step one day forward, stop at
the first workday.  The source loop is unbounded; `fuel` makes the model
total, and `none` marks a run that has not terminated within `fuel`
steps (or hit a holiday parse exception). -/
def nextSearch (holidayList : List Holiday) (dayOffWeekdays : List Nat) :
    Nat → PlainDate → Option PlainDate
  | 0, _ => none
  | Nat.succ fuel, cur =>
    let c := nextDay cur
    match isWorkday c holidayList dayOffWeekdays with
    | some true => some c
    | some false => nextSearch holidayList dayOffWeekdays fuel c
    | none => none

/-- The do-while search of `getPreviousWorkday`: step one day backward,
stop at the first workday. -/
def prevSearch (holidayList : List Holiday) (dayOffWeekdays : List Nat) :
    Nat → PlainDate → Option PlainDate
  | 0, _ => none
  | Nat.succ fuel, cur =>
    let c := prevDay cur
    match isWorkday c holidayList dayOffWeekdays with
    | some true => some c
    | some false => prevSearch holidayList dayOffWeekdays fuel c
    | none => none

/-- Result record of `getWeekNum`. -/
structure WeekNumResult where
  month : Nat
  year : Nat
  weekNum : Int
deriving DecidableEq, Repr

/-- `getWeekNum` (`src/date/index.ts`): Monday-of-week computation with
the reported year/month taken from that Monday, and
`Math.floor(daysDiff / 7) + 1` modelled by flooring integer division. -/
def getWeekNum (d : PlainDate) : WeekNumResult :=
  let dow := dayOfWeek d
  let daysFromMonday := dow - 1
  let mondayOfWeek := subDays d daysFromMonday
  let firstDayOfMonth : PlainDate := ⟨mondayOfWeek.year, mondayOfWeek.month, 1⟩
  let firstDayWeekday := dayOfWeek firstDayOfMonth
  let daysToFirstMonday := if firstDayWeekday = 1 then 0 else 8 - firstDayWeekday
  let firstMondayOfMonth := addDays firstDayOfMonth daysToFirstMonday
  let daysDiff : Int := (toRd mondayOfWeek : Int) - (toRd firstMondayOfMonth : Int)
  ⟨mondayOfWeek.month, mondayOfWeek.year, daysDiff.fdiv 7 + 1⟩

example : getWeekNum ⟨2024, 2, 1⟩ = ⟨1, 2024, 5⟩ := by decide
example : getWeekNum ⟨2024, 1, 15⟩ = ⟨1, 2024, 3⟩ := by decide
example : isWorkday ⟨2024, 1, 15⟩ [] [6, 7] = some true := by decide
example : isWorkday ⟨2024, 1, 13⟩ [] [6, 7] = some false := by decide
example : isWorkday ⟨2024, 1, 12⟩ [] [5, 6] = some false := by decide
example :
    isWorkday ⟨2024, 1, 1⟩ [⟨"2024-01-01", "New Year", false⟩] [6, 7] =
      some false := by decide
example :
    isWorkday ⟨2025, 12, 25⟩ [⟨"2024-12-25", "Christmas", true⟩] [6, 7] =
      some false := by decide
example : nextSearch [] [6, 7] 5 ⟨2024, 1, 12⟩ = some ⟨2024, 1, 15⟩ := by decide
example : prevSearch [] [6, 7] 5 ⟨2024, 1, 15⟩ = some ⟨2024, 1, 12⟩ := by decide

/-- Whitespace test used by the model of `String.prototype.trim` and of
the regex class `\s` (the ASCII whitespace forms suffice for every string
shape the library's formats produce). -/
def isWSChar (c : Char) : Bool :=
  c == ' ' || c == '\t' || c == '\n' || c == '\r'

/-- Model of `String.prototype.trim`: drop whitespace from both ends. -/
def trimChars (l : List Char) : List Char :=
  ((l.dropWhile isWSChar).reverse.dropWhile isWSChar).reverse

/-- Anchored match of `^(\d+)sep(\d+)sep(\d+)$`: the three maximal digit
runs between two occurrences of the separator.  Because the separator is
not a digit, a regex of the form `^(\d{a,b})sep(\d{c,d})sep(\d{e,f})$`
matches exactly when this splitter succeeds and the groups' lengths lie
in the stated ranges (bounded repetition cannot backtrack past a
non-digit separator). -/
def match3Groups (sep : Char) (l : List Char) :
    Option (List Char × List Char × List Char) :=
  match l.dropWhile Char.isDigit with
  | s1 :: r1 =>
    if s1 = sep then
      match r1.dropWhile Char.isDigit with
      | s2 :: r2 =>
        if s2 = sep then
          match r2.dropWhile Char.isDigit with
          | [] =>
            if (l.takeWhile Char.isDigit).isEmpty ||
                (r1.takeWhile Char.isDigit).isEmpty ||
                (r2.takeWhile Char.isDigit).isEmpty then none
            else some (l.takeWhile Char.isDigit, r1.takeWhile Char.isDigit,
              r2.takeWhile Char.isDigit)
          | _ :: _ => none
        else none
      | [] => none
    else none
  | [] => none

/-- Whether `^(\d{4})-(\d{1,2})-(\d{1,2})$` (the recognizer of both the
third and the eighth parser branch) matches. -/
def dashRegexMatch (l : List Char) : Option (List Char × List Char × List Char) :=
  match match3Groups '-' l with
  | some (g1, g2, g3) =>
    if g1.length = 4 ∧ 1 ≤ g2.length ∧ g2.length ≤ 2 ∧ 1 ≤ g3.length ∧
        g3.length ≤ 2 then
      some (g1, g2, g3)
    else none
  | none => none

/-- Whether `^(\d{2,4})\.(\d{1,2})\.(\d{1,2})$` (dot branch) matches. -/
def dotRegexMatch (l : List Char) : Option (List Char × List Char × List Char) :=
  match match3Groups '.' l with
  | some (g1, g2, g3) =>
    if 2 ≤ g1.length ∧ g1.length ≤ 4 ∧ 1 ≤ g2.length ∧ g2.length ≤ 2 ∧
        1 ≤ g3.length ∧ g3.length ≤ 2 then
      some (g1, g2, g3)
    else none
  | none => none

/-- Whether `^(\d{1,4})\/(\d{1,2})\/(\d{1,4})$` (slash branch) matches. -/
def slashRegexMatch (l : List Char) : Option (List Char × List Char × List Char) :=
  match match3Groups '/' l with
  | some (g1, g2, g3) =>
    if 1 ≤ g1.length ∧ g1.length ≤ 4 ∧ 1 ≤ g2.length ∧ g2.length ≤ 2 ∧
        1 ≤ g3.length ∧ g3.length ≤ 4 then
      some (g1, g2, g3)
    else none
  | none => none

/-- Whether `^(\d{4})(\d{2})(\d{2})$` (compact branch) matches. -/
def compactRegexMatch (l : List Char) : Option (List Char × List Char × List Char) :=
  if l.length = 8 ∧ l.all Char.isDigit then
    some (l.take 4, (l.drop 4).take 2, l.drop 6)
  else none

/-- Match of the unanchored Korean regex
`(\d{4})년\s*(\d{1,2})월\s*(\d{1,2})일` at one fixed start position.
Exact counts (`\d{4}`) and bounded runs followed by a non-digit literal
leave the engine no in-position backtracking, so a position matches
exactly when this succeeds. -/
def koreanMatchAt (l : List Char) : Option (Nat × Nat × Nat) :=
  if (l.take 4).length = 4 ∧ (l.take 4).all Char.isDigit then
    match l.drop 4 with
    | '년' :: r1 =>
      if 1 ≤ ((r1.dropWhile isWSChar).takeWhile Char.isDigit).length ∧
          ((r1.dropWhile isWSChar).takeWhile Char.isDigit).length ≤ 2 then
        match (r1.dropWhile isWSChar).dropWhile Char.isDigit with
        | '월' :: r2 =>
          if 1 ≤ ((r2.dropWhile isWSChar).takeWhile Char.isDigit).length ∧
              ((r2.dropWhile isWSChar).takeWhile Char.isDigit).length ≤ 2 then
            match (r2.dropWhile isWSChar).dropWhile Char.isDigit with
            | '일' :: _ =>
              some (natFromDigits (l.take 4),
                natFromDigits ((r1.dropWhile isWSChar).takeWhile Char.isDigit),
                natFromDigits ((r2.dropWhile isWSChar).takeWhile Char.isDigit))
            | _ => none
          else none
        | _ => none
      else none
    | _ => none
  else none

/-- Leftmost match of the unanchored Korean regex: try each start
position from the left, as the JavaScript regex engine does. -/
def koreanFind : List Char → Option (Nat × Nat × Nat)
  | [] => none
  | c :: cs =>
    match koreanMatchAt (c :: cs) with
    | some r => some r
    | none => koreanFind cs

/-- Model of `Temporal.PlainTime`: wall-clock time of day.  Sub-second
precision is never exercised by the library's claims and is out of the
modelled scope. -/
structure PlainTime where
  hour : Nat
  minute : Nat
  second : Nat
deriving DecidableEq, Repr

/-- Model of `Temporal.PlainDateTime`. -/
structure PlainDateTime where
  date : PlainDate
  time : PlainTime
deriving DecidableEq, Repr

/-- Model of `Temporal.ZonedDateTime`: a wall-clock date-time together
with its IANA zone identifier and resolved UTC offset. -/
structure ZonedDateTime where
  dateTime : PlainDateTime
  timeZone : String
  offsetMinutes : Int
deriving DecidableEq, Repr

/-- `Temporal.PlainTime.prototype.toString()`: `HH:MM:SS`. -/
def renderTime (t : PlainTime) : List Char :=
  padNat 2 t.hour ++ ':' :: padNat 2 t.minute ++ ':' :: padNat 2 t.second

/-- `Temporal.PlainDateTime.prototype.toString()`: `date T time`. -/
def renderDateTime (dt : PlainDateTime) : List Char :=
  renderDate dt.date ++ 'T' :: renderTime dt.time

/-- Rendering of a UTC offset as `±HH:MM`. -/
def renderOffset (off : Int) : List Char :=
  (if off < 0 then '-' else '+') ::
    padNat 2 (off.natAbs / 60) ++ ':' :: padNat 2 (off.natAbs % 60)

/-- `Temporal.ZonedDateTime.prototype.toString()`: date-time, offset and
bracketed zone name. -/
def renderZoned (z : ZonedDateTime) : List Char :=
  renderDateTime z.dateTime ++ renderOffset z.offsetMinutes ++
    '[' :: z.timeZone.toList ++ [']']

/-- Split a character list at the first occurrence of `c`. -/
def splitAtFirst (c : Char) : List Char → Option (List Char × List Char)
  | [] => none
  | x :: xs =>
    if x = c then some ([], xs)
    else
      match splitAtFirst c xs with
      | some (a, b) => some (x :: a, b)
      | none => none

/-- Model of a time-of-day component `HH:MM` or `HH:MM:SS` of an ISO
date-time string (fractional seconds and reduced forms are out of the
modelled scope). -/
def parseIsoTimeChars (l : List Char) : Option PlainTime :=
  match l with
  | [h1, h2, ':', m1, m2] =>
    if ([h1, h2, m1, m2].all Char.isDigit) then
      let h := natFromDigits [h1, h2]
      let m := natFromDigits [m1, m2]
      if h ≤ 23 ∧ m ≤ 59 then some ⟨h, m, 0⟩ else none
    else none
  | [h1, h2, ':', m1, m2, ':', s1, s2] =>
    if ([h1, h2, m1, m2, s1, s2].all Char.isDigit) then
      let h := natFromDigits [h1, h2]
      let m := natFromDigits [m1, m2]
      let s := natFromDigits [s1, s2]
      if h ≤ 23 ∧ m ≤ 59 ∧ s ≤ 59 then some ⟨h, m, s⟩ else none
    else none
  | _ => none

/-- Model of `Temporal.PlainDateTime.from(string)` on the
`YYYY-MM-DDTHH:MM[:SS]` shape (further ISO shapes out of modelled scope). -/
def plainDateTimeFromChars (l : List Char) : Option PlainDateTime :=
  match splitAtFirst 'T' l with
  | some (dpart, tpart) =>
    match parseIsoDateChars dpart, parseIsoTimeChars tpart with
    | some d, some t => some ⟨d, t⟩
    | _, _ => none
  | none => none

/-- Model of `Temporal.ZonedDateTime.from(string)`.  Zone-database-backed
parsing of offset/bracket forms is out of the modelled scope (no claim
exercises it); the model rejects every string, matching Temporal on the
invalid zoned strings the claims could produce. -/
def zonedFromChars (_ : List Char) : Option ZonedDateTime :=
  none

/-- The library's error taxonomy (`src/errors.ts`), with the data each
constructor interpolates into its message. -/
inductive DateError where
  | invalidDateFormat (dateString : String) (supportedFormats : List String)
  | invalidDate (dateString : String)
  | unsupportedFormatType (formatType : String) (supportedTypes : List String)
  | missingParameter (parameterName : String)
  | incompatibleOperation (operation reason : String)
deriving DecidableEq, Repr

/-- The union `PlainDate | PlainDateTime | ZonedDateTime` over which the
parser and formatter operate. -/
inductive TemporalValue where
  | plainDate (d : PlainDate)
  | plainDateTime (dt : PlainDateTime)
  | zonedDateTime (z : ZonedDateTime)
deriving DecidableEq, Repr

/-- `date instanceof Temporal.PlainDate ? date : date.toPlainDate()`. -/
def TemporalValue.toPlainDate : TemporalValue → PlainDate
  | .plainDate d => d
  | .plainDateTime dt => dt.date
  | .zonedDateTime z => z.dateTime.date

/-- `date.toPlainTime()` on the time-of-day-bearing kinds. -/
def TemporalValue.timeOfDay : TemporalValue → Option PlainTime
  | .plainDate _ => none
  | .plainDateTime dt => some dt.time
  | .zonedDateTime z => some z.dateTime.time

/-- The century base `Math.floor(currentYear / 100) * 100` that the
parser derives from the clock for 2-digit years. -/
def centuryOf (currentYear : Nat) : Nat :=
  currentYear / 100 * 100

/-- The supported-format list named by the parser's fallback error. -/
def supportedFormatsList : List String :=
  ["ISO 8601 (YYYY-MM-DD)",
   "ISO DateTime (YYYY-MM-DDTHH:mm:ss)",
   "ISO with timezone (YYYY-MM-DDTHH:mm:ss+09:00[Asia/Seoul])",
   "Korean format (2024년 1월 15일)",
   "Dot separated (2024.01.15)",
   "Slash separated (2024/01/15)",
   "Compact format (20240115)"]

/-- Body of `parseFlexibleDateString` (`src/format/index.ts`) after the
initial `dateString.trim()`, with the century base and the trimmed
character list passed explicitly (`dateString` is retained because the
final fallback error interpolates the original, untrimmed string). -/
def parseFlexibleTrimmed (century : Nat) (dateString : String)
    (trimmed : List Char) : Except DateError TemporalValue :=
  if trimmed.contains 'T' &&
      (trimmed.contains '+' || trimmed.contains 'Z' || trimmed.contains '[') then
    match zonedFromChars trimmed with
    | some z => .ok (.zonedDateTime z)
    | none => .error (.invalidDate (String.mk trimmed))
  else if trimmed.contains 'T' then
    match plainDateTimeFromChars trimmed with
    | some dt => .ok (.plainDateTime dt)
    | none => .error (.invalidDate (String.mk trimmed))
  else
    match dashRegexMatch trimmed with
    | some _ =>
      match parseIsoDateChars trimmed with
      | some d => .ok (.plainDate d)
      | none => .error (.invalidDate (String.mk trimmed))
    | none =>
    match koreanFind trimmed with
    | some (y, m, d) => .ok (.plainDate (plainDateConstrain y m d))
    | none =>
    match dotRegexMatch trimmed with
    | some (g1, g2, g3) =>
      .ok (.plainDate (plainDateConstrain
        (if g1.length = 2 then century + natFromDigits g1 else natFromDigits g1)
        (natFromDigits g2) (natFromDigits g3)))
    | none =>
    match slashRegexMatch trimmed with
    | some (g1, g2, g3) =>
      if g1.length = 4 then
        .ok (.plainDate (plainDateConstrain (natFromDigits g1)
          (natFromDigits g2) (natFromDigits g3)))
      else if g3.length ≤ 2 then
        .ok (.plainDate (plainDateConstrain (century + natFromDigits g3)
          (natFromDigits g1) (natFromDigits g2)))
      else
        .ok (.plainDate (plainDateConstrain (natFromDigits g3)
          (natFromDigits g1) (natFromDigits g2)))
    | none =>
    match compactRegexMatch trimmed with
    | some (g1, g2, g3) =>
      .ok (.plainDate (plainDateConstrain (natFromDigits g1)
        (natFromDigits g2) (natFromDigits g3)))
    | none =>
    match dashRegexMatch trimmed with
    | some (g1, g2, g3) =>
      .ok (.plainDate (plainDateConstrain (natFromDigits g1)
        (natFromDigits g2) (natFromDigits g3)))
    | none =>
    match parseIsoDateChars trimmed with
    | some d => .ok (.plainDate d)
    | none =>
    match plainDateTimeFromChars trimmed with
    | some dt => .ok (.plainDateTime dt)
    | none =>
    match zonedFromChars trimmed with
    | some z => .ok (.zonedDateTime z)
    | none => .error (.invalidDateFormat dateString supportedFormatsList)

/-- `parseFlexibleDateString` (`src/format/index.ts`) with the century
base (derived in the source from `new Date().getFullYear()`) passed
explicitly, applied to the trimmed input.  The fixed recognizer order of
the source is preserved: zoned ISO, plain ISO date-time, ISO date,
Korean, dot, slash, compact, dash, native fallback.  The object-built
branches (Korean/dot/slash/compact/dash-8) construct through Temporal's
default `overflow: "constrain"` and cannot throw for the ≤ 4-digit years
their regexes admit, so their `try/catch` is dead code and the model
returns `ok` directly. -/
def parseFlexibleCore (century : Nat) (dateString : String) :
    Except DateError TemporalValue :=
  parseFlexibleTrimmed century dateString (trimChars dateString.toList)

/-- `parseFlexibleDateString`, taking the current year that the source
reads from the system clock (`new Date().getFullYear()`) as an explicit
parameter of this pure model. -/
def parseFlexibleDateString (s : String) (currentYear : Nat) :
    Except DateError TemporalValue :=
  parseFlexibleCore (centuryOf currentYear) s

instance {ε α : Type} [DecidableEq ε] [DecidableEq α] :
    DecidableEq (Except ε α) := fun a b =>
  match a, b with
  | .ok x, .ok y =>
    if h : x = y then .isTrue (by rw [h])
    else .isFalse (fun he => h (by cases he; rfl))
  | .error x, .error y =>
    if h : x = y then .isTrue (by rw [h])
    else .isFalse (fun he => h (by cases he; rfl))
  | .ok _, .error _ => .isFalse (fun he => Except.noConfusion he)
  | .error _, .ok _ => .isFalse (fun he => Except.noConfusion he)

example :
    parseFlexibleDateString "2024-01-15" 2025 =
      .ok (.plainDate ⟨2024, 1, 15⟩) := by decide
example :
    parseFlexibleDateString "2024년 1월 15일" 2025 =
      .ok (.plainDate ⟨2024, 1, 15⟩) := by decide
example :
    parseFlexibleDateString "24.01.15" 2025 =
      .ok (.plainDate ⟨2024, 1, 15⟩) := by decide
example :
    parseFlexibleDateString "01/15/24" 2025 =
      .ok (.plainDate ⟨2024, 1, 15⟩) := by decide
example :
    parseFlexibleDateString "2024/01/15" 2025 =
      .ok (.plainDate ⟨2024, 1, 15⟩) := by decide
example :
    parseFlexibleDateString "20240115" 2025 =
      .ok (.plainDate ⟨2024, 1, 15⟩) := by decide
example :
    parseFlexibleDateString "2024-1-15" 2025 =
      .error (.invalidDate "2024-1-15") := by decide

/-- Fuel-indexed global literal replacement (structural recursion so
that concrete values reduce inside the kernel); `fuel` is any upper
bound on the subject's length. -/
def replaceAllAux (pat rep : List Char) : Nat → List Char → List Char
  | _, [] => []
  | 0, s => s
  | Nat.succ fuel, c :: cs =>
    if !pat.isEmpty && pat.isPrefixOf (c :: cs) then
      rep ++ replaceAllAux pat rep fuel (cs.drop (pat.length - 1))
    else
      c :: replaceAllAux pat rep fuel cs

/-- Model of `String.prototype.replace(/pat/g, rep)` for a literal
pattern: leftmost non-overlapping occurrences are replaced and the
replacement text is not rescanned, exactly as in JavaScript. -/
def replaceAll (pat rep s : List Char) : List Char :=
  replaceAllAux pat rep s.length s

/-- `formatCustom` (`src/format/index.ts`): greedy longest-first token
substitution (`YYYY` before `YY`, `MM` before `M`, ...); the time tokens
are substituted only when the value carries a time of day. -/
def formatCustom (v : TemporalValue) (formatString : String) : String :=
  let pd := v.toPlainDate
  let r1 := replaceAll (("YYYY").toList) (padNat 4 pd.year) formatString.toList
  let r2 := replaceAll (("YY").toList) (padNat 2 (pd.year % 100)) r1
  let r3 := replaceAll (("MM").toList) (padNat 2 pd.month) r2
  let r4 := replaceAll (("M").toList) (natDigits pd.month) r3
  let r5 := replaceAll (("DD").toList) (padNat 2 pd.day) r4
  let r6 := replaceAll (("D").toList) (natDigits pd.day) r5
  match v.timeOfDay with
  | none => String.mk r6
  | some t =>
    let r7 := replaceAll (("HH").toList) (padNat 2 t.hour) r6
    let r8 := replaceAll (("H").toList) (natDigits t.hour) r7
    let r9 := replaceAll (("mm").toList) (padNat 2 t.minute) r8
    let r10 := replaceAll (("m").toList) (natDigits t.minute) r9
    let r11 := replaceAll (("ss").toList) (padNat 2 t.second) r10
    let r12 := replaceAll (("s").toList) (natDigits t.second) r11
    String.mk r12

/-- The `date` argument of `format`: a typed value or a string to be
parsed first. -/
inductive DateInput where
  | str (s : String)
  | plainDate (d : PlainDate)
  | plainDateTime (dt : PlainDateTime)
  | zonedDateTime (z : ZonedDateTime)
deriving DecidableEq, Repr

/-- `format` (`src/format/index.ts`).  The `type` switch operates on the
runtime string, so an out-of-enumeration value reaches the default
branch.  The current year parameter feeds the string parser exactly as
the source's clock read does.  In the `datetime` branch the source's
`toString().replace("T", " ")` replaces the first occurrence of `T`,
which in a canonical date-time string is the unique date/time separator,
so the model splices the space directly. -/
def format (date : DateInput) (type : String) (formatString : Option String)
    (currentYear : Nat) : Except DateError String :=
  let parsed : Except DateError TemporalValue :=
    match date with
    | .str s => parseFlexibleDateString s currentYear
    | .plainDate d => .ok (.plainDate d)
    | .plainDateTime dt => .ok (.plainDateTime dt)
    | .zonedDateTime z => .ok (.zonedDateTime z)
  match parsed with
  | .error e => .error e
  | .ok tv =>
    if type = "date" then
      .ok (String.mk (renderDate tv.toPlainDate))
    else if type = "time" then
      match tv.timeOfDay with
      | none =>
        .error (.incompatibleOperation ("formatting as time")
          ("PlainDate does not contain time information"))
      | some t => .ok (String.mk (renderTime t))
    else if type = "datetime" then
      match tv with
      | .plainDate d => .ok (String.mk (renderDate d ++ (" 00:00:00").toList))
      | .plainDateTime dt =>
        .ok (String.mk (renderDate dt.date ++ ' ' :: renderTime dt.time))
      | .zonedDateTime z =>
        .ok (String.mk (renderDate z.dateTime.date ++ ' ' ::
          renderTime z.dateTime.time))
    else if type = "iso" then
      match tv with
      | .plainDate d => .ok (String.mk (renderDate d))
      | .plainDateTime dt => .ok (String.mk (renderDateTime dt))
      | .zonedDateTime z => .ok (String.mk (renderZoned z))
    else if type = "custom" then
      match formatString with
      | none => .error (.missingParameter ("formatString"))
      | some fs =>
        if fs.isEmpty then .error (.missingParameter ("formatString"))
        else .ok (formatCustom tv fs)
    else
      .error (.unsupportedFormatType type
        ["date", "time", "datetime", "iso", "custom"])

/-- `formatKorean` (`src/format/index.ts`): custom format with the fixed
Korean pattern. -/
def formatKorean (date : DateInput) (currentYear : Nat) :
    Except DateError String :=
  format date ("custom") (some ("YYYY년 M월 D일")) currentYear

example :
    format (.plainDate ⟨2024, 1, 15⟩) ("date") none 2025 =
      .ok ("2024-01-15") := by decide
example :
    format (.plainDate ⟨2024, 1, 15⟩) ("datetime") none 2025 =
      .ok ("2024-01-15 00:00:00") := by decide
example :
    format (.str ("2024-01-15T14:30:00")) ("custom")
      (some ("YYYY/MM/DD HH:mm")) 2025 = .ok ("2024/01/15 14:30") := by decide
example :
    format (.str ("2024-01-15T14:30:00")) ("time") none 2025 =
      .ok ("14:30:00") := by decide
example :
    formatKorean (.plainDate ⟨2024, 1, 15⟩) 2025 =
      .ok ("2024년 1월 15일") := by decide
example :
    formatKorean (.plainDateTime ⟨⟨2024, 12, 25⟩, ⟨14, 30, 0⟩⟩) 2025 =
      .ok ("2024년 12월 25일") := by decide
example :
    parseFlexibleDateString "2024년 1월 15일" 2025 =
      .ok (.plainDate ⟨2024, 1, 15⟩) := by decide

/-- The specification's notion of a holiday matching a date: a holiday
with `recurring = true` matches when the month and day of its parsed date
equal the candidate's month and day (ignoring year); one with
`recurring = false` matches when its date string equals the candidate's
canonical calendar-date string exactly. -/
def holidayMatchesSpec (d : PlainDate) (h : Holiday) : Prop :=
  if h.recurring then
    match PlainDate.fromString h.date with
    | some hd => hd.month = d.month ∧ hd.day = d.day
    | none => False
  else h.date = d.render

instance (d : PlainDate) (h : Holiday) : Decidable (holidayMatchesSpec d h) := by
  unfold holidayMatchesSpec
  split
  · split <;> infer_instance
  · infer_instance

/-- Scope hypothesis for the workday theorems: every recurring holiday's
date string parses as a date (otherwise the source's
`Temporal.PlainDate.from(holiday.date)` throws out of `isWorkday`). -/
def parseableHolidays (hol : List Holiday) : Prop :=
  ∀ h ∈ hol, h.recurring = true → (PlainDate.fromString h.date).isSome = true

instance (hol : List Holiday) : Decidable (parseableHolidays hol) := by
  unfold parseableHolidays
  infer_instance

/-- Injection of a typed value into `format`'s input union. -/
def DateInput.ofValue : TemporalValue → DateInput
  | .plainDate d => .plainDate d
  | .plainDateTime dt => .plainDateTime dt
  | .zonedDateTime z => .zonedDateTime z

/-! ## Calendar arithmetic lemmas -/

lemma daysInMonth_pos (y m : Nat) (h1 : 1 ≤ m) (h2 : m ≤ 12) :
    0 < daysInMonth y m := by
  unfold daysInMonth
  split_ifs <;> omega

lemma daysBeforeMonth_succ (y m : Nat) :
    daysBeforeMonth y (m + 1) = daysBeforeMonth y m + daysInMonth y m := rfl

lemma daysBeforeMonth_le (y m k : Nat) :
    daysBeforeMonth y m ≤ daysBeforeMonth y (m + k) := by
  induction k with
  | zero => exact Nat.le_refl _
  | succ k ih =>
    calc daysBeforeMonth y m ≤ daysBeforeMonth y (m + k) := ih
    _ ≤ daysBeforeMonth y (m + k) + daysInMonth y (m + k) := Nat.le_add_right _ _
    _ = daysBeforeMonth y (m + k + 1) := (daysBeforeMonth_succ _ _).symm

lemma daysBeforeMonth_mono (y : Nat) {m m' : Nat} (h : m ≤ m') :
    daysBeforeMonth y m ≤ daysBeforeMonth y m' := by
  have := daysBeforeMonth_le y m (m' - m)
  rwa [Nat.add_sub_cancel' h] at this

lemma daysBeforeMonth_13 (y : Nat) : daysBeforeMonth y 13 = yearLength y := by
  by_cases h : isLeapYear y
  · simp [daysBeforeMonth, daysInMonth, yearLength, h]
  · simp [daysBeforeMonth, daysInMonth, yearLength, h]

lemma yearLength_ge (y : Nat) : 365 ≤ yearLength y := by
  unfold yearLength
  split_ifs <;> omega

lemma yearOffset_succ (y : Nat) (h : 1 ≤ y) :
    yearOffset (y + 1) = yearOffset y + yearLength y := by
  unfold yearOffset yearLength isLeapYear
  by_cases h4 : y % 4 = 0 <;> by_cases h100 : y % 100 = 0 <;>
    by_cases h400 : y % 400 = 0 <;> simp [h4, h100, h400] <;> omega

lemma yearOffset_add_le (y y' : Nat) (hy : 1 ≤ y) (h : y < y') :
    yearOffset y + yearLength y ≤ yearOffset y' := by
  induction y' with
  | zero => omega
  | succ y' ih =>
    rcases Nat.lt_or_ge y y' with hlt | hge
    · calc yearOffset y + yearLength y ≤ yearOffset y' := ih hlt
      _ ≤ yearOffset y' + yearLength y' := Nat.le_add_right _ _
      _ = yearOffset (y' + 1) := (yearOffset_succ y' (by omega)).symm
    · have : y = y' := by omega
      subst this
      exact Nat.le_of_eq (yearOffset_succ y hy).symm

lemma dayOffset_bounds (d : PlainDate) (h : validDate d) :
    1 ≤ daysBeforeMonth d.year d.month + d.day ∧
      daysBeforeMonth d.year d.month + d.day ≤ yearLength d.year := by
  obtain ⟨hy, hm1, hm2, hd1, hd2⟩ := h
  constructor
  · omega
  · have h1 : daysBeforeMonth d.year d.month + d.day ≤
        daysBeforeMonth d.year (d.month + 1) := by
      rw [daysBeforeMonth_succ]
      omega
    have h2 : daysBeforeMonth d.year (d.month + 1) ≤ daysBeforeMonth d.year 13 :=
      daysBeforeMonth_mono d.year (by omega)
    rw [daysBeforeMonth_13] at h2
    omega

lemma toRd_pos (d : PlainDate) (h : validDate d) : 1 ≤ toRd d := by
  obtain ⟨hy, hm1, hm2, hd1, hd2⟩ := h
  unfold toRd
  omega

lemma nextDay_valid (d : PlainDate) (h : validDate d) : validDate (nextDay d) := by
  obtain ⟨hy, hm1, hm2, hd1, hd2⟩ := h
  unfold nextDay
  split_ifs with h1 h2
  · unfold validDate
    dsimp only
    omega
  · have hpos := daysInMonth_pos d.year (d.month + 1) (by omega) (by omega)
    unfold validDate
    dsimp only
    omega
  · have hpos : daysInMonth (d.year + 1) 1 = 31 := rfl
    unfold validDate
    dsimp only
    omega

lemma toRd_nextDay (d : PlainDate) (h : validDate d) :
    toRd (nextDay d) = toRd d + 1 := by
  obtain ⟨hy, hm1, hm2, hd1, hd2⟩ := h
  unfold nextDay
  split_ifs with h1 h2
  · unfold toRd
    dsimp only
    omega
  · unfold toRd
    dsimp only
    rw [daysBeforeMonth_succ]
    omega
  · have hm : d.month = 12 := by omega
    have hday : d.day = 31 := by
      have e4 : daysInMonth d.year 12 = 31 := rfl
      rw [hm] at hd2 h1
      omega
    unfold toRd
    dsimp only
    rw [yearOffset_succ d.year hy]
    have e1 : daysBeforeMonth (d.year + 1) 1 = 0 := rfl
    have e2 : daysBeforeMonth d.year 13 =
        daysBeforeMonth d.year 12 + daysInMonth d.year 12 := rfl
    have e3 : daysBeforeMonth d.year 13 = yearLength d.year :=
      daysBeforeMonth_13 d.year
    have e4 : daysInMonth d.year 12 = 31 := rfl
    rw [e1, hm, hday]
    omega

lemma addDays_spec (n : Nat) (d : PlainDate) (h : validDate d) :
    validDate (addDays d n) ∧ toRd (addDays d n) = toRd d + n := by
  induction n generalizing d with
  | zero => exact ⟨h, rfl⟩
  | succ n ih =>
    have hv := nextDay_valid d h
    have hr := toRd_nextDay d h
    have step : addDays d (n + 1) = addDays (nextDay d) n := rfl
    rw [step]
    obtain ⟨iv, ir⟩ := ih (nextDay d) hv
    exact ⟨iv, by omega⟩

lemma prevDay_spec (d : PlainDate) (h : validDate d) (h2 : 2 ≤ toRd d) :
    validDate (prevDay d) ∧ toRd (prevDay d) + 1 = toRd d := by
  obtain ⟨hy, hm1, hm2, hd1, hd2⟩ := h
  unfold prevDay
  split_ifs with ha hb
  · constructor
    · unfold validDate
      dsimp only
      omega
    · unfold toRd
      dsimp only
      omega
  · have hm : 2 ≤ d.month := by omega
    have hd : d.day = 1 := by omega
    have hdim : 0 < daysInMonth d.year (d.month - 1) :=
      daysInMonth_pos d.year (d.month - 1) (by omega) (by omega)
    have e2 : d.month - 1 + 1 = d.month := by omega
    have e1 : daysBeforeMonth d.year d.month =
        daysBeforeMonth d.year (d.month - 1) + daysInMonth d.year (d.month - 1) := by
      conv_lhs => rw [← e2]
      exact daysBeforeMonth_succ d.year (d.month - 1)
    constructor
    · unfold validDate
      dsimp only
      omega
    · unfold toRd
      dsimp only
      omega
  · have hm : d.month = 1 := by omega
    have hd : d.day = 1 := by omega
    have htoRd : toRd d = yearOffset d.year + 1 := by
      unfold toRd
      have e0 : daysBeforeMonth d.year 1 = 0 := rfl
      rw [hm, hd, e0]
    have hy2 : 2 ≤ d.year := by
      by_contra hcon
      have hone : d.year = 1 := by omega
      rw [hone] at htoRd
      have : yearOffset 1 = 0 := rfl
      omega
    have e4 : daysInMonth (d.year - 1) 12 = 31 := rfl
    constructor
    · unfold validDate
      dsimp only
      omega
    · unfold toRd
      dsimp only
      have e2 : d.year - 1 + 1 = d.year := by omega
      have e1 : yearOffset d.year =
          yearOffset (d.year - 1) + yearLength (d.year - 1) := by
        conv_lhs => rw [← e2]
        exact yearOffset_succ (d.year - 1) (by omega)
      have e3 : daysBeforeMonth (d.year - 1) 13 =
          daysBeforeMonth (d.year - 1) 12 + daysInMonth (d.year - 1) 12 := rfl
      have e5 : daysBeforeMonth (d.year - 1) 13 = yearLength (d.year - 1) :=
        daysBeforeMonth_13 _
      have e0 : daysBeforeMonth d.year 1 = 0 := rfl
      rw [hm, hd, e0]
      omega

lemma subDays_spec (n : Nat) (d : PlainDate) (h : validDate d)
    (hn : n + 1 ≤ toRd d) :
    validDate (subDays d n) ∧ toRd (subDays d n) + n = toRd d := by
  induction n generalizing d with
  | zero => exact ⟨h, rfl⟩
  | succ n ih =>
    have hp := prevDay_spec d h (by omega)
    have step : subDays d (n + 1) = subDays (prevDay d) n := rfl
    rw [step]
    obtain ⟨iv, ir⟩ := ih (prevDay d) hp.1 (by omega)
    exact ⟨iv, by omega⟩

lemma toRd_inj (d e : PlainDate) (hd : validDate d) (he : validDate e)
    (h : toRd d = toRd e) : d = e := by
  have hdb := dayOffset_bounds d hd
  have heb := dayOffset_bounds e he
  obtain ⟨hdy, hdm1, hdm2, hdd1, hdd2⟩ := hd
  obtain ⟨hey, hem1, hem2, hed1, hed2⟩ := he
  have hyear : d.year = e.year := by
    rcases Nat.lt_trichotomy d.year e.year with hlt | heq | hgt
    · have h1 := yearOffset_add_le d.year e.year hdy hlt
      unfold toRd at h
      omega
    · exact heq
    · have h1 := yearOffset_add_le e.year d.year hey hgt
      unfold toRd at h
      omega
  have hoff : daysBeforeMonth d.year d.month + d.day =
      daysBeforeMonth e.year e.month + e.day := by
    unfold toRd at h
    rw [hyear] at h ⊢
    omega
  rw [hyear] at hoff
  have hmonth : d.month = e.month := by
    rcases Nat.lt_trichotomy d.month e.month with hlt | heq | hgt
    · have h1 : daysBeforeMonth e.year (d.month + 1) ≤ daysBeforeMonth e.year e.month :=
        daysBeforeMonth_mono e.year (by omega)
      rw [daysBeforeMonth_succ] at h1
      rw [hyear] at hdd2
      omega
    · exact heq
    · have h1 : daysBeforeMonth e.year (e.month + 1) ≤ daysBeforeMonth e.year d.month :=
        daysBeforeMonth_mono e.year (by omega)
      rw [daysBeforeMonth_succ] at h1
      omega
  have hday : d.day = e.day := by
    rw [hmonth] at hoff
    omega
  cases d
  cases e
  simp_all

/-! ## Workday lemmas and claim C1 -/

lemma holidayMatch_isSome (d : PlainDate) (h : Holiday)
    (hp : h.recurring = true → (PlainDate.fromString h.date).isSome = true) :
    (holidayMatch d h).isSome = true := by
  unfold holidayMatch
  by_cases hr : h.recurring = true
  · rw [if_pos hr]
    have hsome := hp hr
    cases hpd : PlainDate.fromString h.date with
    | none => rw [hpd] at hsome; simp at hsome
    | some hd => simp
  · rw [if_neg hr]
    simp

lemma holidayMatch_true_iff (d : PlainDate) (h : Holiday) :
    holidayMatch d h = some true ↔ holidayMatchesSpec d h := by
  unfold holidayMatch holidayMatchesSpec
  by_cases hr : h.recurring = true
  · rw [if_pos hr, if_pos hr]
    cases hpd : PlainDate.fromString h.date with
    | none => simp
    | some hd => simp
  · rw [if_neg hr, if_neg hr]
    simp

lemma holidayMatch_false_iff (d : PlainDate) (h : Holiday)
    (hp : h.recurring = true → (PlainDate.fromString h.date).isSome = true) :
    holidayMatch d h = some false ↔ ¬holidayMatchesSpec d h := by
  have hs := holidayMatch_isSome d h hp
  have ht := holidayMatch_true_iff d h
  obtain ⟨b, hb⟩ := Option.isSome_iff_exists.mp hs
  rw [hb] at ht ⊢
  cases b <;> simp_all

lemma anyHolidayMatch_isSome (d : PlainDate) (hol : List Holiday)
    (hp : parseableHolidays hol) :
    (anyHolidayMatch d hol).isSome = true := by
  induction hol with
  | nil => simp [anyHolidayMatch]
  | cons h t ih =>
    have hph := hp h (List.mem_cons_self h t)
    have hpt : parseableHolidays t := fun x hx => hp x (List.mem_cons_of_mem h hx)
    unfold anyHolidayMatch
    have hs := holidayMatch_isSome d h hph
    obtain ⟨b, hb⟩ := Option.isSome_iff_exists.mp hs
    rw [hb]
    cases b
    · exact ih hpt
    · simp

lemma anyHolidayMatch_true_iff (d : PlainDate) (hol : List Holiday)
    (hp : parseableHolidays hol) :
    anyHolidayMatch d hol = some true ↔ ∃ h ∈ hol, holidayMatchesSpec d h := by
  induction hol with
  | nil => simp [anyHolidayMatch]
  | cons h t ih =>
    have hph := hp h (List.mem_cons_self h t)
    have hpt : parseableHolidays t := fun x hx => hp x (List.mem_cons_of_mem h hx)
    unfold anyHolidayMatch
    have hs := holidayMatch_isSome d h hph
    obtain ⟨b, hb⟩ := Option.isSome_iff_exists.mp hs
    rw [hb]
    cases b
    · have hnm : ¬holidayMatchesSpec d h :=
        (holidayMatch_false_iff d h hph).mp hb
      rw [ih hpt]
      simp [hnm]
    · have hm : holidayMatchesSpec d h := (holidayMatch_true_iff d h).mp hb
      simp [hm]

lemma anyHolidayMatch_false_iff (d : PlainDate) (hol : List Holiday)
    (hp : parseableHolidays hol) :
    anyHolidayMatch d hol = some false ↔ ¬∃ h ∈ hol, holidayMatchesSpec d h := by
  have hs := anyHolidayMatch_isSome d hol hp
  have ht := anyHolidayMatch_true_iff d hol hp
  obtain ⟨b, hb⟩ := Option.isSome_iff_exists.mp hs
  rw [hb] at ht ⊢
  cases b <;> simp_all

/-- C1: for every calendar date, holiday list and non-working-weekday
set (with all recurring holiday dates parseable, the only holiday lists
the source can process without throwing), `isWorkday` returns `false`
exactly when the ISO weekday lies in the non-working set or some holiday
matches the date — recurring holidays by month+day of their parsed date,
non-recurring ones by exact canonical date-string equality — and returns
`true` otherwise. -/
theorem isWorkday_false_iff (d : PlainDate) (hol : List Holiday)
    (dow : List Nat) (hv : validDate d) (hp : parseableHolidays hol) :
    (isWorkday d hol dow = some false ↔
      (dayOfWeek d ∈ dow ∨ ∃ h ∈ hol, holidayMatchesSpec d h)) ∧
    (isWorkday d hol dow = some true ↔
      ¬(dayOfWeek d ∈ dow ∨ ∃ h ∈ hol, holidayMatchesSpec d h)) := by
  unfold isWorkday
  by_cases hc : dayOfWeek d ∈ dow
  · have hcc : dow.contains (dayOfWeek d) = true := by
      simpa [List.contains] using hc
    rw [hcc]
    simp [hc]
  · have hcc : dow.contains (dayOfWeek d) = false := by
      simpa [List.contains] using hc
    rw [hcc]
    simp only [Bool.false_eq_true, if_false]
    obtain ⟨b, hb⟩ := Option.isSome_iff_exists.mp (anyHolidayMatch_isSome d hol hp)
    rw [hb]
    cases b
    · have hnm := (anyHolidayMatch_false_iff d hol hp).mp hb
      simp [hc, hnm]
    · have hm := (anyHolidayMatch_true_iff d hol hp).mp hb
      simp [hc, hm]

/-- Witness for C1: New Year's Day 2024 (a Monday) with a matching
non-recurring holiday is not a workday. -/
theorem isWorkday_false_iff_witness :
    (validDate ⟨2024, 1, 1⟩ ∧
      parseableHolidays [⟨"2024-01-01", "New Year", false⟩]) ∧
    (isWorkday ⟨2024, 1, 1⟩ [⟨"2024-01-01", "New Year", false⟩] [6, 7] =
        some false ↔
      (dayOfWeek ⟨2024, 1, 1⟩ ∈ [6, 7] ∨
        ∃ h ∈ [(⟨"2024-01-01", "New Year", false⟩ : Holiday)],
          holidayMatchesSpec ⟨2024, 1, 1⟩ h)) :=
  ⟨⟨by decide, by decide⟩,
    (isWorkday_false_iff ⟨2024, 1, 1⟩ [⟨"2024-01-01", "New Year", false⟩]
      [6, 7] (by decide) (by decide)).1⟩

/-! ## Workday search lemmas and claims C2, C3 -/

lemma isWorkday_isSome (d : PlainDate) (hol : List Holiday) (dow : List Nat)
    (hp : parseableHolidays hol) : (isWorkday d hol dow).isSome = true := by
  unfold isWorkday
  split_ifs
  · simp
  · obtain ⟨b, hb⟩ := Option.isSome_iff_exists.mp (anyHolidayMatch_isSome d hol hp)
    rw [hb]
    simp

lemma isWorkday_false_of_ne_true (d : PlainDate) (hol : List Holiday)
    (dow : List Nat) (hp : parseableHolidays hol)
    (hne : isWorkday d hol dow ≠ some true) :
    isWorkday d hol dow = some false := by
  obtain ⟨b, hb⟩ := Option.isSome_iff_exists.mp (isWorkday_isSome d hol dow hp)
  cases b
  · exact hb
  · exact absurd hb hne

lemma nextSearch_eq (hol : List Holiday) (dow : List Nat) (n0 : Nat) :
    ∀ (d : PlainDate) (fuel : Nat), 1 ≤ n0 → n0 ≤ fuel →
    isWorkday (addDays d n0) hol dow = some true →
    (∀ k, 1 ≤ k → k < n0 → isWorkday (addDays d k) hol dow = some false) →
    nextSearch hol dow fuel d = some (addDays d n0) := by
  induction n0 with
  | zero => intro d fuel h1; omega
  | succ m ih =>
    intro d fuel _ hfuel htrue hfalse
    obtain ⟨f, rfl⟩ : ∃ f, fuel = f + 1 := ⟨fuel - 1, by omega⟩
    have e1 : addDays d 1 = nextDay d := rfl
    by_cases hm : m = 0
    · subst hm
      rw [e1] at htrue
      simp only [nextSearch]
      rw [htrue, e1]
    · have hm1 : 1 ≤ m := by omega
      have hk1 : isWorkday (addDays d 1) hol dow = some false :=
        hfalse 1 (Nat.le_refl 1) (by omega)
      rw [e1] at hk1
      simp only [nextSearch]
      rw [hk1]
      show nextSearch hol dow f (nextDay d) = some (addDays d (m + 1))
      have e2 : addDays d (m + 1) = addDays (nextDay d) m := rfl
      rw [e2]
      refine ih (nextDay d) f hm1 (by omega) ?_ ?_
      · rw [← e2]
        exact htrue
      · intro k hk1' hk2
        have e3 : addDays (nextDay d) k = addDays d (k + 1) := rfl
        rw [e3]
        exact hfalse (k + 1) (by omega) (by omega)

lemma nextSearch_unique (hol : List Holiday) (dow : List Nat) (fuel : Nat) :
    ∀ (d : PlainDate) (n0 : Nat) (r : PlainDate), 1 ≤ n0 →
    isWorkday (addDays d n0) hol dow = some true →
    (∀ k, 1 ≤ k → k < n0 → isWorkday (addDays d k) hol dow = some false) →
    nextSearch hol dow fuel d = some r → r = addDays d n0 := by
  induction fuel with
  | zero =>
    intro d n0 r _ _ _ hsearch
    simp [nextSearch] at hsearch
  | succ f ih =>
    intro d n0 r h1 htrue hfalse hsearch
    have e1 : addDays d 1 = nextDay d := rfl
    simp only [nextSearch] at hsearch
    split at hsearch
    · rename_i hw
      cases hsearch
      have hn1 : n0 = 1 := by
        by_contra hcon
        have hf := hfalse 1 (Nat.le_refl 1) (by omega)
        rw [e1] at hf
        rw [hf] at hw
        simp at hw
      subst hn1
      rw [e1]
    · rename_i hw
      have hn2 : 2 ≤ n0 := by
        by_contra hcon
        have hone : n0 = 1 := by omega
        subst hone
        rw [e1] at htrue
        rw [htrue] at hw
        simp at hw
      obtain ⟨m, rfl⟩ : ∃ m, n0 = m + 1 := ⟨n0 - 1, by omega⟩
      have e2 : addDays d (m + 1) = addDays (nextDay d) m := rfl
      rw [e2]
      refine ih (nextDay d) m r (by omega) ?_ ?_ hsearch
      · rw [← e2]
        exact htrue
      · intro k hk1 hk2
        have e3 : addDays (nextDay d) k = addDays d (k + 1) := rfl
        rw [e3]
        exact hfalse (k + 1) (by omega) (by omega)
    · exact absurd hsearch (by simp)

lemma prevSearch_eq (hol : List Holiday) (dow : List Nat) (n0 : Nat) :
    ∀ (d : PlainDate) (fuel : Nat), 1 ≤ n0 → n0 ≤ fuel →
    isWorkday (subDays d n0) hol dow = some true →
    (∀ k, 1 ≤ k → k < n0 → isWorkday (subDays d k) hol dow = some false) →
    prevSearch hol dow fuel d = some (subDays d n0) := by
  induction n0 with
  | zero => intro d fuel h1; omega
  | succ m ih =>
    intro d fuel _ hfuel htrue hfalse
    obtain ⟨f, rfl⟩ : ∃ f, fuel = f + 1 := ⟨fuel - 1, by omega⟩
    have e1 : subDays d 1 = prevDay d := rfl
    by_cases hm : m = 0
    · subst hm
      rw [e1] at htrue
      simp only [prevSearch]
      rw [htrue, e1]
    · have hm1 : 1 ≤ m := by omega
      have hk1 : isWorkday (subDays d 1) hol dow = some false :=
        hfalse 1 (Nat.le_refl 1) (by omega)
      rw [e1] at hk1
      simp only [prevSearch]
      rw [hk1]
      show prevSearch hol dow f (prevDay d) = some (subDays d (m + 1))
      have e2 : subDays d (m + 1) = subDays (prevDay d) m := rfl
      rw [e2]
      refine ih (prevDay d) f hm1 (by omega) ?_ ?_
      · rw [← e2]
        exact htrue
      · intro k hk1' hk2
        have e3 : subDays (prevDay d) k = subDays d (k + 1) := rfl
        rw [e3]
        exact hfalse (k + 1) (by omega) (by omega)

lemma prevSearch_unique (hol : List Holiday) (dow : List Nat) (fuel : Nat) :
    ∀ (d : PlainDate) (n0 : Nat) (r : PlainDate), 1 ≤ n0 →
    isWorkday (subDays d n0) hol dow = some true →
    (∀ k, 1 ≤ k → k < n0 → isWorkday (subDays d k) hol dow = some false) →
    prevSearch hol dow fuel d = some r → r = subDays d n0 := by
  induction fuel with
  | zero =>
    intro d n0 r _ _ _ hsearch
    simp [prevSearch] at hsearch
  | succ f ih =>
    intro d n0 r h1 htrue hfalse hsearch
    have e1 : subDays d 1 = prevDay d := rfl
    simp only [prevSearch] at hsearch
    split at hsearch
    · rename_i hw
      cases hsearch
      have hn1 : n0 = 1 := by
        by_contra hcon
        have hf := hfalse 1 (Nat.le_refl 1) (by omega)
        rw [e1] at hf
        rw [hf] at hw
        simp at hw
      subst hn1
      rw [e1]
    · rename_i hw
      have hn2 : 2 ≤ n0 := by
        by_contra hcon
        have hone : n0 = 1 := by omega
        subst hone
        rw [e1] at htrue
        rw [htrue] at hw
        simp at hw
      obtain ⟨m, rfl⟩ : ∃ m, n0 = m + 1 := ⟨n0 - 1, by omega⟩
      have e2 : subDays d (m + 1) = subDays (prevDay d) m := rfl
      rw [e2]
      refine ih (prevDay d) m r (by omega) ?_ ?_ hsearch
      · rw [← e2]
        exact htrue
      · intro k hk1 hk2
        have e3 : subDays (prevDay d) k = subDays d (k + 1) := rfl
        rw [e3]
        exact hfalse (k + 1) (by omega) (by omega)
    · exact absurd hsearch (by simp)

/-- C2: whenever a workday exists strictly after `d` (respectively
strictly before `d`, within the modelled year range), the unbounded
do-while loops of `getNextWorkday` / `getPreviousWorkday` return — for
some fuel, and with the same result under every sufficient fuel — a date
that is strictly after `d` (resp. strictly before), is itself a workday
under the same holiday/weekday parameters, and such that every valid
date strictly between `d` and the result is not a workday. -/
theorem getNextWorkday_getPreviousWorkday_correct
    (d : PlainDate) (hol : List Holiday) (dow : List Nat)
    (hv : validDate d) (hp : parseableHolidays hol)
    (hexN : ∃ n : Nat, isWorkday (addDays d (n + 1)) hol dow = some true)
    (hexP : ∃ n : Nat, n + 2 ≤ toRd d ∧
      isWorkday (subDays d (n + 1)) hol dow = some true) :
    (∃ r : PlainDate,
      (∃ fuel, nextSearch hol dow fuel d = some r) ∧
      (∀ fuel r2, nextSearch hol dow fuel d = some r2 → r2 = r) ∧
      validDate r ∧ toRd d < toRd r ∧
      isWorkday r hol dow = some true ∧
      (∀ e, validDate e → toRd d < toRd e → toRd e < toRd r →
        isWorkday e hol dow = some false)) ∧
    (∃ r : PlainDate,
      (∃ fuel, prevSearch hol dow fuel d = some r) ∧
      (∀ fuel r2, prevSearch hol dow fuel d = some r2 → r2 = r) ∧
      validDate r ∧ toRd r < toRd d ∧
      isWorkday r hol dow = some true ∧
      (∀ e, validDate e → toRd r < toRd e → toRd e < toRd d →
        isWorkday e hol dow = some false)) := by
  constructor
  · -- next-workday half
    have hspec := Nat.find_spec hexN
    have hmin : ∀ k, 1 ≤ k → k < Nat.find hexN + 1 →
        isWorkday (addDays d k) hol dow = some false := by
      intro k hk1 hk2
      apply isWorkday_false_of_ne_true _ _ _ hp
      intro htrue
      have hnot := Nat.find_min hexN (m := k - 1) (by omega)
      have ek : k - 1 + 1 = k := by omega
      rw [ek] at hnot
      exact hnot htrue
    have har := addDays_spec (Nat.find hexN + 1) d hv
    refine ⟨addDays d (Nat.find hexN + 1),
      ⟨Nat.find hexN + 1,
        nextSearch_eq hol dow _ d _ (by omega) (Nat.le_refl _) hspec hmin⟩,
      fun fuel r2 hr2 =>
        nextSearch_unique hol dow fuel d _ r2 (by omega) hspec hmin hr2,
      har.1, by omega, hspec, ?_⟩
    intro e hev he1 he2
    rw [har.2] at he2
    have hak := addDays_spec (toRd e - toRd d) d hv
    have hee : e = addDays d (toRd e - toRd d) :=
      toRd_inj e (addDays d (toRd e - toRd d)) hev hak.1 (by omega)
    rw [hee]
    exact hmin (toRd e - toRd d) (by omega) (by omega)
  · -- previous-workday half
    have hspec := Nat.find_spec hexP
    have hminP : ∀ k, 1 ≤ k → k < Nat.find hexP + 1 →
        isWorkday (subDays d k) hol dow = some false := by
      intro k hk1 hk2
      apply isWorkday_false_of_ne_true _ _ _ hp
      intro htrue
      have hnot := Nat.find_min hexP (m := k - 1) (by omega)
      have ek : k - 1 + 1 = k := by omega
      apply hnot
      refine ⟨by omega, ?_⟩
      rw [ek]
      exact htrue
    have hsub := subDays_spec (Nat.find hexP + 1) d hv (by omega)
    refine ⟨subDays d (Nat.find hexP + 1),
      ⟨Nat.find hexP + 1,
        prevSearch_eq hol dow _ d _ (by omega) (Nat.le_refl _) hspec.2 hminP⟩,
      fun fuel r2 hr2 =>
        prevSearch_unique hol dow fuel d _ r2 (by omega) hspec.2 hminP hr2,
      hsub.1, by omega, hspec.2, ?_⟩
    intro e hev he1 he2
    have hsub2 := hsub.2
    have hke : 1 ≤ toRd d - toRd e ∧ toRd d - toRd e < Nat.find hexP + 1 := by
      omega
    have hsk := subDays_spec (toRd d - toRd e) d hv (by omega)
    have hee : e = subDays d (toRd d - toRd e) :=
      toRd_inj e (subDays d (toRd d - toRd e)) hev hsk.1 (by omega)
    rw [hee]
    exact hminP (toRd d - toRd e) (by omega) (by omega)

/-- Witness for C2 at Saturday 2024-01-13 with the default weekend: the
next workday exists (Monday 2024-01-15, two days ahead) and the previous
workday exists (Friday 2024-01-12, one day back). -/
theorem getNextWorkday_getPreviousWorkday_correct_witness :
    (validDate ⟨2024, 1, 13⟩ ∧ parseableHolidays [] ∧
      isWorkday (addDays ⟨2024, 1, 13⟩ 2) [] [6, 7] = some true ∧
      2 ≤ toRd (⟨2024, 1, 13⟩ : PlainDate) ∧
      isWorkday (subDays ⟨2024, 1, 13⟩ 1) [] [6, 7] = some true) ∧
    ((∃ r : PlainDate,
      (∃ fuel, nextSearch [] [6, 7] fuel ⟨2024, 1, 13⟩ = some r) ∧
      (∀ fuel r2, nextSearch [] [6, 7] fuel ⟨2024, 1, 13⟩ = some r2 → r2 = r) ∧
      validDate r ∧ toRd (⟨2024, 1, 13⟩ : PlainDate) < toRd r ∧
      isWorkday r [] [6, 7] = some true ∧
      (∀ e, validDate e → toRd (⟨2024, 1, 13⟩ : PlainDate) < toRd e →
        toRd e < toRd r → isWorkday e [] [6, 7] = some false)) ∧
    (∃ r : PlainDate,
      (∃ fuel, prevSearch [] [6, 7] fuel ⟨2024, 1, 13⟩ = some r) ∧
      (∀ fuel r2, prevSearch [] [6, 7] fuel ⟨2024, 1, 13⟩ = some r2 → r2 = r) ∧
      validDate r ∧ toRd r < toRd (⟨2024, 1, 13⟩ : PlainDate) ∧
      isWorkday r [] [6, 7] = some true ∧
      (∀ e, validDate e → toRd r < toRd e →
        toRd e < toRd (⟨2024, 1, 13⟩ : PlainDate) →
        isWorkday e [] [6, 7] = some false))) :=
  ⟨⟨by decide, by decide, by decide, by decide, by decide⟩,
    getNextWorkday_getPreviousWorkday_correct ⟨2024, 1, 13⟩ [] [6, 7]
      (by decide) (by decide) ⟨1, by decide⟩ ⟨0, by decide, by decide⟩⟩

lemma isWorkday_all_weekdays_off (d : PlainDate) (hol : List Holiday) :
    isWorkday d hol [1, 2, 3, 4, 5, 6, 7] = some false := by
  have hmem : dayOfWeek d ∈ [1, 2, 3, 4, 5, 6, 7] := by
    unfold dayOfWeek
    have hr : (toRd d - 1) % 7 < 7 := Nat.mod_lt _ (by omega)
    simp only [List.mem_cons, List.not_mem_nil, or_false]
    omega
  have hc : ([1, 2, 3, 4, 5, 6, 7] : List Nat).contains (dayOfWeek d) = true := by
    simpa [List.contains] using hmem
  unfold isWorkday
  rw [hc]
  simp

lemma nextSearch_all_off_none (hol : List Holiday) :
    ∀ (fuel : Nat) (d : PlainDate),
      nextSearch hol [1, 2, 3, 4, 5, 6, 7] fuel d = none := by
  intro fuel
  induction fuel with
  | zero => intro d; rfl
  | succ f ih =>
    intro d
    simp only [nextSearch]
    rw [isWorkday_all_weekdays_off (nextDay d) hol]
    exact ih (nextDay d)

lemma prevSearch_all_off_none (hol : List Holiday) :
    ∀ (fuel : Nat) (d : PlainDate),
      prevSearch hol [1, 2, 3, 4, 5, 6, 7] fuel d = none := by
  intro fuel
  induction fuel with
  | zero => intro d; rfl
  | succ f ih =>
    intro d
    simp only [prevSearch]
    rw [isWorkday_all_weekdays_off (prevDay d) hol]
    exact ih (prevDay d)

lemma nextSearch_terminates (d : PlainDate) (hol : List Holiday)
    (dow : List Nat) (hp : parseableHolidays hol)
    (hex : ∃ n, isWorkday (addDays d (n + 1)) hol dow = some true) :
    ∃ fuel r, nextSearch hol dow fuel d = some r := by
  have hspec := Nat.find_spec hex
  have hmin : ∀ k, 1 ≤ k → k < Nat.find hex + 1 →
      isWorkday (addDays d k) hol dow = some false := by
    intro k hk1 hk2
    apply isWorkday_false_of_ne_true _ _ _ hp
    intro htrue
    have hnot := Nat.find_min hex (m := k - 1) (by omega)
    have ek : k - 1 + 1 = k := by omega
    rw [ek] at hnot
    exact hnot htrue
  exact ⟨Nat.find hex + 1, addDays d (Nat.find hex + 1),
    nextSearch_eq hol dow _ d _ (by omega) (Nat.le_refl _) hspec hmin⟩

lemma prevSearch_terminates (d : PlainDate) (hol : List Holiday)
    (dow : List Nat) (hp : parseableHolidays hol)
    (hex : ∃ n, n + 2 ≤ toRd d ∧
      isWorkday (subDays d (n + 1)) hol dow = some true) :
    ∃ fuel r, prevSearch hol dow fuel d = some r := by
  have hspec := Nat.find_spec hex
  have hmin : ∀ k, 1 ≤ k → k < Nat.find hex + 1 →
      isWorkday (subDays d k) hol dow = some false := by
    intro k hk1 hk2
    apply isWorkday_false_of_ne_true _ _ _ hp
    intro htrue
    have hnot := Nat.find_min hex (m := k - 1) (by omega)
    have ek : k - 1 + 1 = k := by omega
    apply hnot
    refine ⟨by omega, ?_⟩
    rw [ek]
    exact htrue
  exact ⟨Nat.find hex + 1, subDays d (Nat.find hex + 1),
    prevSearch_eq hol dow _ d _ (by omega) (Nat.le_refl _) hspec.2 hmin⟩

/-- C3: the day-stepping loops are unbounded.  Whenever the parameters
leave a workday in the search direction the loop terminates (for some
fuel in the fuel-indexed model of the unbounded do-while loop), and for
parameters that mark every day as non-working — here a non-working-weekday
set containing all seven ISO weekdays — the search returns within no
fuel bound at all, i.e. the source loop never terminates. -/
theorem daySteppingSearch_unbounded :
    (∀ (d : PlainDate) (hol : List Holiday) (dow : List Nat),
      parseableHolidays hol →
      (∃ n, isWorkday (addDays d (n + 1)) hol dow = some true) →
      ∃ fuel r, nextSearch hol dow fuel d = some r) ∧
    (∀ (d : PlainDate) (hol : List Holiday) (dow : List Nat),
      parseableHolidays hol →
      (∃ n, n + 2 ≤ toRd d ∧
        isWorkday (subDays d (n + 1)) hol dow = some true) →
      ∃ fuel r, prevSearch hol dow fuel d = some r) ∧
    (∀ fuel, nextSearch [] [1, 2, 3, 4, 5, 6, 7] fuel ⟨2024, 1, 15⟩ = none) ∧
    (∀ fuel, prevSearch [] [1, 2, 3, 4, 5, 6, 7] fuel ⟨2024, 1, 15⟩ = none) :=
  ⟨fun d hol dow hp hex => nextSearch_terminates d hol dow hp hex,
   fun d hol dow hp hex => prevSearch_terminates d hol dow hp hex,
   fun fuel => nextSearch_all_off_none [] fuel ⟨2024, 1, 15⟩,
   fun fuel => prevSearch_all_off_none [] fuel ⟨2024, 1, 15⟩⟩

/-- Witness for C3: with the default weekend the searches from Saturday
2024-01-13 terminate; with all weekdays marked non-working no fuel
suffices. -/
theorem daySteppingSearch_unbounded_witness :
    (∃ fuel r, nextSearch [] [6, 7] fuel ⟨2024, 1, 13⟩ = some r) ∧
    (∃ fuel r, prevSearch [] [6, 7] fuel ⟨2024, 1, 13⟩ = some r) ∧
    nextSearch [] [1, 2, 3, 4, 5, 6, 7] 1000 ⟨2024, 1, 15⟩ = none :=
  ⟨daySteppingSearch_unbounded.1 ⟨2024, 1, 13⟩ [] [6, 7] (by decide)
      ⟨1, by decide⟩,
   daySteppingSearch_unbounded.2.1 ⟨2024, 1, 13⟩ [] [6, 7] (by decide)
      ⟨0, by decide, by decide⟩,
   daySteppingSearch_unbounded.2.2.1 1000⟩

/-! ## Week-number lemmas and claim C4 -/

lemma daysInMonth_ge_28 (y m : Nat) (h1 : 1 ≤ m) (h2 : m ≤ 12) :
    28 ≤ daysInMonth y m := by
  unfold daysInMonth
  split_ifs <;> omega

lemma addDays_within (y m dd n : Nat) (h : dd + n ≤ daysInMonth y m) :
    addDays ⟨y, m, dd⟩ n = ⟨y, m, dd + n⟩ := by
  induction n generalizing dd with
  | zero => rfl
  | succ n ih =>
    have hstep : addDays (⟨y, m, dd⟩ : PlainDate) (n + 1) =
        addDays (nextDay ⟨y, m, dd⟩) n := rfl
    have hnd : nextDay (⟨y, m, dd⟩ : PlainDate) = ⟨y, m, dd + 1⟩ := by
      unfold nextDay
      dsimp only
      rw [if_pos (by omega)]
    rw [hstep, hnd, ih (dd + 1) (by omega)]
    congr 1
    omega

lemma dayOfWeek_bounds (d : PlainDate) :
    1 ≤ dayOfWeek d ∧ dayOfWeek d ≤ 7 := by
  unfold dayOfWeek
  constructor
  · omega
  · have : (toRd d - 1) % 7 < 7 := Nat.mod_lt _ (by omega)
    omega

lemma firstMonday_spec (y m : Nat) (hy : 1 ≤ y) (hm1 : 1 ≤ m) (hm2 : m ≤ 12)
    (k : Nat)
    (hk : k = if dayOfWeek ⟨y, m, 1⟩ = 1 then 0 else 8 - dayOfWeek ⟨y, m, 1⟩) :
    k ≤ 6 ∧
    addDays ⟨y, m, 1⟩ k = ⟨y, m, 1 + k⟩ ∧
    validDate ⟨y, m, 1 + k⟩ ∧
    dayOfWeek (⟨y, m, 1 + k⟩ : PlainDate) = 1 ∧
    (∀ e : PlainDate, validDate e → e.year = y → e.month = m →
      dayOfWeek e = 1 → 1 + k ≤ e.day) := by
  have hdim := daysInMonth_ge_28 y m hm1 hm2
  have hfd : validDate ⟨y, m, 1⟩ := ⟨hy, hm1, hm2, Nat.le_refl 1, by
    show 1 ≤ daysInMonth y m
    omega⟩
  have hb := dayOfWeek_bounds ⟨y, m, 1⟩
  have hk6 : k ≤ 6 := by
    rw [hk]
    split_ifs <;> omega
  have hadd := addDays_within y m 1 k (by omega)
  have hval : validDate ⟨y, m, 1 + k⟩ := ⟨hy, hm1, hm2, by
    show 1 ≤ 1 + k
    omega, by
    show 1 + k ≤ daysInMonth y m
    omega⟩
  have hpos := toRd_pos _ hfd
  have h1 : toRd (⟨y, m, 1 + k⟩ : PlainDate) = toRd ⟨y, m, 1⟩ + k := by
    unfold toRd
    dsimp only
    omega
  have h2 : dayOfWeek (⟨y, m, 1⟩ : PlainDate) =
      (toRd (⟨y, m, 1⟩ : PlainDate) - 1) % 7 + 1 := rfl
  have h3 : dayOfWeek (⟨y, m, 1 + k⟩ : PlainDate) =
      (toRd (⟨y, m, 1 + k⟩ : PlainDate) - 1) % 7 + 1 := rfl
  rw [h2] at hk
  have hmonday : dayOfWeek (⟨y, m, 1 + k⟩ : PlainDate) = 1 := by
    rw [h3, h1]
    split_ifs at hk with hw <;> omega
  refine ⟨hk6, hadd, hval, hmonday, ?_⟩
  intro e hev hey hem hew
  obtain ⟨_, _, _, hed1, _⟩ := hev
  have heRd : toRd e = yearOffset y + daysBeforeMonth y m + e.day := by
    unfold toRd
    rw [hey, hem]
  have hewd : (toRd e - 1) % 7 + 1 = 1 := hew
  have hfRd : toRd (⟨y, m, 1⟩ : PlainDate) =
      yearOffset y + daysBeforeMonth y m + 1 := rfl
  have hfmw : (toRd (⟨y, m, 1 + k⟩ : PlainDate) - 1) % 7 + 1 = 1 := by
    rw [← h3]
    exact hmonday
  rw [h1, hfRd] at hfmw
  rw [heRd] at hewd
  omega

/-- C4: `getWeekNum` reports the year and month of the Monday of the
input's week (the input minus `isoWeekday - 1` days) rather than of the
input itself; the computed `weekNum` is
`floor((mondayOfWeek - firstMondayOfMonth) / 7) + 1` where
`firstMondayOfMonth` is the first Monday on or after the 1st of that
Monday's month (a Monday of the month with day at most 7 and minimal
among the month's Mondays); in particular the boundary example
`getWeekNum('2024-02-01')` yields year 2024, month 1, week 5. -/
theorem getWeekNum_correct (d : PlainDate) (hv : validDate d) :
    validDate (subDays d (dayOfWeek d - 1)) ∧
    dayOfWeek (subDays d (dayOfWeek d - 1)) = 1 ∧
    (getWeekNum d).year = (subDays d (dayOfWeek d - 1)).year ∧
    (getWeekNum d).month = (subDays d (dayOfWeek d - 1)).month ∧
    (∃ fm : PlainDate, validDate fm ∧
      fm.year = (subDays d (dayOfWeek d - 1)).year ∧
      fm.month = (subDays d (dayOfWeek d - 1)).month ∧
      dayOfWeek fm = 1 ∧ fm.day ≤ 7 ∧
      (∀ e : PlainDate, validDate e → e.year = fm.year → e.month = fm.month →
        dayOfWeek e = 1 → fm.day ≤ e.day) ∧
      (getWeekNum d).weekNum =
        ((toRd (subDays d (dayOfWeek d - 1)) : Int) -
          (toRd fm : Int)).fdiv 7 + 1) ∧
    getWeekNum ⟨2024, 2, 1⟩ = ⟨1, 2024, 5⟩ ∧
    (PlainDate.fromString "2024-02-01").map getWeekNum = some ⟨1, 2024, 5⟩ := by
  have hdow : dayOfWeek d = (toRd d - 1) % 7 + 1 := rfl
  have hpos := toRd_pos d hv
  have hmod : (toRd d - 1) % 7 ≤ toRd d - 1 := Nat.mod_le _ _
  have hsub := subDays_spec (dayOfWeek d - 1) d hv (by omega)
  have hMv := hsub.1
  have hMr := hsub.2
  have hMw : dayOfWeek (subDays d (dayOfWeek d - 1)) = 1 := by
    have hMd : dayOfWeek (subDays d (dayOfWeek d - 1)) =
        (toRd (subDays d (dayOfWeek d - 1)) - 1) % 7 + 1 := rfl
    omega
  refine ⟨hMv, hMw, rfl, rfl, ?_, by decide, by decide⟩
  obtain ⟨hMy, hMm1, hMm2, _, _⟩ := hMv
  have hfm := firstMonday_spec (subDays d (dayOfWeek d - 1)).year
    (subDays d (dayOfWeek d - 1)).month hMy hMm1 hMm2
    (if dayOfWeek ⟨(subDays d (dayOfWeek d - 1)).year,
        (subDays d (dayOfWeek d - 1)).month, 1⟩ = 1 then 0
      else 8 - dayOfWeek ⟨(subDays d (dayOfWeek d - 1)).year,
        (subDays d (dayOfWeek d - 1)).month, 1⟩) rfl
  obtain ⟨hk6, hadd, hval, hmonday, hminimal⟩ := hfm
  refine ⟨⟨(subDays d (dayOfWeek d - 1)).year,
    (subDays d (dayOfWeek d - 1)).month,
    1 + (if dayOfWeek ⟨(subDays d (dayOfWeek d - 1)).year,
        (subDays d (dayOfWeek d - 1)).month, 1⟩ = 1 then 0
      else 8 - dayOfWeek ⟨(subDays d (dayOfWeek d - 1)).year,
        (subDays d (dayOfWeek d - 1)).month, 1⟩)⟩,
    hval, rfl, rfl, hmonday, by
      show 1 + _ ≤ 7
      omega, hminimal, ?_⟩
  have hwn : (getWeekNum d).weekNum =
      ((toRd (subDays d (dayOfWeek d - 1)) : Int) -
        (toRd (addDays ⟨(subDays d (dayOfWeek d - 1)).year,
          (subDays d (dayOfWeek d - 1)).month, 1⟩
          (if dayOfWeek ⟨(subDays d (dayOfWeek d - 1)).year,
              (subDays d (dayOfWeek d - 1)).month, 1⟩ = 1 then 0
            else 8 - dayOfWeek ⟨(subDays d (dayOfWeek d - 1)).year,
              (subDays d (dayOfWeek d - 1)).month, 1⟩)) : Int)).fdiv 7 + 1 :=
    rfl
  rw [hwn, hadd]

/-- Witness for C4 at the claim's boundary input 2024-02-01. -/
theorem getWeekNum_correct_witness :
    validDate ⟨2024, 2, 1⟩ ∧ getWeekNum ⟨2024, 2, 1⟩ = ⟨1, 2024, 5⟩ :=
  ⟨by decide,
    (getWeekNum_correct ⟨2024, 2, 1⟩ (by decide)).2.2.2.2.2.1⟩

/-! ## Formatter error claims C8 and C10 -/

/-- C8: formatting a pure calendar date with type `time` raises the
`IncompatibleOperation` fault (never a string), while every
time-of-day-bearing value formats to its time string and does not raise
that fault. -/
theorem format_time_requires_timeOfDay (d : PlainDate) (dt : PlainDateTime)
    (z : ZonedDateTime) (fs : Option String) (cy : Nat) :
    format (.plainDate d) ("time") fs cy =
      .error (.incompatibleOperation ("formatting as time")
        ("PlainDate does not contain time information")) ∧
    format (.plainDateTime dt) ("time") fs cy =
      .ok (String.mk (renderTime dt.time)) ∧
    format (.zonedDateTime z) ("time") fs cy =
      .ok (String.mk (renderTime z.dateTime.time)) :=
  ⟨rfl, rfl, rfl⟩

/-- C10: a `custom` format call with an empty pattern string behaves
exactly as if the pattern had been omitted — the source's falsy presence
check treats `""` as absent — so it raises `MissingParameter` and no call
of `format` can apply an empty custom pattern and return a string. -/
theorem format_custom_empty_pattern (input : DateInput) (cy : Nat) :
    format input ("custom") (some ("")) cy = format input ("custom") none cy ∧
    ∀ s : String, format input ("custom") (some ("")) cy ≠ .ok s := by
  have hempty : ("" : String).isEmpty = true := rfl
  cases input with
  | str s0 =>
    cases hp : parseFlexibleDateString s0 cy with
    | error e =>
      constructor
      · simp [format, hp]
      · intro s hcon
        simp [format, hp] at hcon
    | ok tv =>
      constructor
      · simp [format, hp, hempty]
      · intro s hcon
        simp [format, hp, hempty] at hcon
  | plainDate d =>
    exact ⟨rfl, fun s hcon => by simp [format, hempty] at hcon⟩
  | plainDateTime dt =>
    exact ⟨rfl, fun s hcon => by simp [format, hempty] at hcon⟩
  | zonedDateTime z =>
    exact ⟨rfl, fun s hcon => by simp [format, hempty] at hcon⟩

/-- Witness for C10 at a concrete date input. -/
theorem format_custom_empty_pattern_witness :
    format (.plainDate ⟨2024, 1, 15⟩) ("custom") (some ("")) 2024 =
      format (.plainDate ⟨2024, 1, 15⟩) ("custom") none 2024 ∧
    format (.plainDate ⟨2024, 1, 15⟩) ("custom") (some ("")) 2024 ≠
      .ok ("2024-01-15") :=
  ⟨(format_custom_empty_pattern (.plainDate ⟨2024, 1, 15⟩) 2024).1,
   (format_custom_empty_pattern (.plainDate ⟨2024, 1, 15⟩) 2024).2
     ("2024-01-15")⟩

/-! ## Parser purity: claim C9 -/

/-- C9 counterexample: the parser consults the clock.  The same 2-digit-
year input parsed when the current year is 2024 and when it is 2124
yields different dates, so two runs at two times need not agree and the
parse result depends on state beyond the argument string. -/
theorem parseFlexible_clock_dependent :
    parseFlexibleDateString ("24.01.15") 2024 =
      .ok (.plainDate ⟨2024, 1, 15⟩) ∧
    parseFlexibleDateString ("24.01.15") 2124 =
      .ok (.plainDate ⟨2124, 1, 15⟩) ∧
    parseFlexibleDateString ("24.01.15") 2024 ≠
      parseFlexibleDateString ("24.01.15") 2124 :=
  ⟨by decide, by decide, by decide⟩

/-- C9 (amended): the flexible date-string parser has no side effects
and its result depends only on the argument string and the current
century `floor(currentYear/100)*100` read from the clock; two runs whose
clock readings share a century produce identical results or faults. -/
theorem parseFlexible_century_deterministic (s : String) (cy1 cy2 : Nat)
    (h : centuryOf cy1 = centuryOf cy2) :
    parseFlexibleDateString s cy1 = parseFlexibleDateString s cy2 := by
  unfold parseFlexibleDateString
  rw [h]

/-- Witness for the amended C9: runs in 2024 and 2025 agree. -/
theorem parseFlexible_century_deterministic_witness :
    centuryOf 2024 = centuryOf 2025 ∧
    parseFlexibleDateString ("24.01.15") 2024 =
      parseFlexibleDateString ("24.01.15") 2025 :=
  ⟨by decide,
    parseFlexible_century_deterministic ("24.01.15") 2024 2025 (by decide)⟩

/-! ## Digit-string lemmas -/

lemma natDigitsAux_congr : ∀ (n f1 f2 : Nat), n < f1 → n < f2 →
    natDigitsAux f1 n = natDigitsAux f2 n := by
  intro n
  induction n using Nat.strong_induction_on with
  | _ n ih =>
    intro f1 f2 h1 h2
    obtain ⟨g1, rfl⟩ : ∃ g, f1 = g + 1 := ⟨f1 - 1, by omega⟩
    obtain ⟨g2, rfl⟩ : ∃ g, f2 = g + 1 := ⟨f2 - 1, by omega⟩
    show natDigitsAux (g1 + 1) n = natDigitsAux (g2 + 1) n
    unfold natDigitsAux
    by_cases h10 : n < 10
    · rw [if_pos h10, if_pos h10]
    · rw [if_neg h10, if_neg h10]
      have hlt : n / 10 < n := Nat.div_lt_self (by omega) (by omega)
      rw [ih (n / 10) hlt g1 g2 (by omega) (by omega)]

lemma natDigits_unfold (n : Nat) :
    natDigits n = if n < 10 then [digitChar n]
      else natDigits (n / 10) ++ [digitChar (n % 10)] := by
  show natDigitsAux (n + 1) n = _
  unfold natDigitsAux
  by_cases h10 : n < 10
  · rw [if_pos h10, if_pos h10]
  · rw [if_neg h10, if_neg h10]
    have hlt : n / 10 < n := Nat.div_lt_self (by omega) (by omega)
    rw [natDigitsAux_congr (n / 10) n (n / 10 + 1) (by omega) (by omega)]
    rfl

lemma digitChar_isDigit (k : Nat) : (digitChar k).isDigit = true := by
  unfold digitChar
  split_ifs <;> decide

lemma digitVal_digitChar (k : Nat) (h : k < 10) :
    digitVal (digitChar k) = k := by
  interval_cases k <;> decide

lemma natDigits_all_isDigit (n : Nat) :
    ∀ c ∈ natDigits n, c.isDigit = true := by
  induction n using Nat.strong_induction_on with
  | _ n ih =>
    intro c hc
    rw [natDigits_unfold] at hc
    by_cases h10 : n < 10
    · rw [if_pos h10] at hc
      simp at hc
      rw [hc]
      exact digitChar_isDigit n
    · rw [if_neg h10] at hc
      rcases List.mem_append.mp hc with hmem | hmem
      · exact ih (n / 10) (Nat.div_lt_self (by omega) (by omega)) c hmem
      · simp at hmem
        rw [hmem]
        exact digitChar_isDigit (n % 10)

lemma natDigits_ne_nil (n : Nat) : natDigits n ≠ [] := by
  rw [natDigits_unfold]
  split_ifs
  · simp
  · simp

lemma natFromDigits_append_singleton (a : List Char) (c : Char) :
    natFromDigits (a ++ [c]) = 10 * natFromDigits a + digitVal c := by
  unfold natFromDigits
  rw [List.foldl_append]
  rfl

lemma natFromDigits_natDigits (n : Nat) :
    natFromDigits (natDigits n) = n := by
  induction n using Nat.strong_induction_on with
  | _ n ih =>
    rw [natDigits_unfold]
    by_cases h10 : n < 10
    · rw [if_pos h10]
      show 10 * 0 + digitVal (digitChar n) = n
      rw [digitVal_digitChar n h10]
      omega
    · rw [if_neg h10, natFromDigits_append_singleton,
        ih (n / 10) (Nat.div_lt_self (by omega) (by omega)),
        digitVal_digitChar (n % 10) (by omega)]
      omega

lemma natFromDigits_replicate_zero (k : Nat) (l : List Char) :
    natFromDigits (List.replicate k '0' ++ l) = natFromDigits l := by
  induction k with
  | zero => rfl
  | succ k ih =>
    show natFromDigits ('0' :: (List.replicate k '0' ++ l)) = natFromDigits l
    unfold natFromDigits at *
    rw [List.foldl_cons]
    have : (10 * 0 + digitVal '0') = 0 := rfl
    rw [this]
    exact ih

lemma natFromDigits_padDigits (w : Nat) (l : List Char) :
    natFromDigits (padDigits w l) = natFromDigits l :=
  natFromDigits_replicate_zero _ _

lemma natFromDigits_padNat (w n : Nat) :
    natFromDigits (padNat w n) = n := by
  rw [padNat, natFromDigits_padDigits, natFromDigits_natDigits]

lemma natDigits_length_le : ∀ (k n : Nat), 1 ≤ k → n < 10 ^ k →
    (natDigits n).length ≤ k := by
  intro k
  induction k with
  | zero => intro n h1; omega
  | succ k ih =>
    intro n _ h
    rw [natDigits_unfold]
    by_cases h10 : n < 10
    · rw [if_pos h10]
      simp
    · rw [if_neg h10]
      rw [List.length_append]
      have hd : n / 10 < 10 ^ k := by
        have hp : 10 ^ (k + 1) = 10 ^ k * 10 := by ring
        rw [hp] at h
        omega
      have hk1 : 1 ≤ k := by
        by_contra hk0
        have hkz : k = 0 := by omega
        rw [hkz] at h
        norm_num at h
        omega
      have := ih (n / 10) hk1 hd
      simp
      omega

lemma natDigits_length_pos (n : Nat) : 1 ≤ (natDigits n).length := by
  have := natDigits_ne_nil n
  cases hn : natDigits n
  · exact absurd hn this
  · simp

lemma padNat_length (w n : Nat) (hw1 : 1 ≤ w) (h : n < 10 ^ w) :
    (padNat w n).length = w := by
  unfold padNat padDigits
  rw [List.length_append, List.length_replicate]
  have h1 := natDigits_length_le w n hw1 h
  have h2 := natDigits_length_pos n
  omega

lemma padNat_all_isDigit (w n : Nat) :
    ∀ c ∈ padNat w n, c.isDigit = true := by
  intro c hc
  unfold padNat padDigits at hc
  rcases List.mem_append.mp hc with hmem | hmem
  · have : c = '0' := List.eq_of_mem_replicate hmem
    rw [this]
    decide
  · exact natDigits_all_isDigit n c hmem

/-! ## List-scanning lemmas for the regex models -/

lemma takeWhile_append_all {p : Char → Bool} (a b : List Char)
    (h : ∀ c ∈ a, p c = true) :
    (a ++ b).takeWhile p = a ++ b.takeWhile p := by
  induction a with
  | nil => rfl
  | cons x xs ih =>
    have hx : p x = true := h x (List.mem_cons_self x xs)
    simp only [List.cons_append, List.takeWhile_cons, hx, if_true]
    rw [ih (fun c hc => h c (List.mem_cons_of_mem x hc))]

lemma dropWhile_append_all {p : Char → Bool} (a b : List Char)
    (h : ∀ c ∈ a, p c = true) :
    (a ++ b).dropWhile p = b.dropWhile p := by
  induction a with
  | nil => rfl
  | cons x xs ih =>
    have hx : p x = true := h x (List.mem_cons_self x xs)
    simp only [List.cons_append, List.dropWhile_cons, hx, if_true]
    exact ih (fun c hc => h c (List.mem_cons_of_mem x hc))

lemma takeWhile_cons_neg {p : Char → Bool} (x : Char) (xs : List Char)
    (h : p x = false) : (x :: xs).takeWhile p = [] := by
  simp [List.takeWhile_cons, h]

lemma dropWhile_cons_neg {p : Char → Bool} (x : Char) (xs : List Char)
    (h : p x = false) : (x :: xs).dropWhile p = x :: xs := by
  simp [List.dropWhile_cons, h]

lemma contains_eq_false_of_not_mem (l : List Char) (c : Char)
    (h : c ∉ l) : l.contains c = false := by
  simpa [List.contains] using h

lemma takeWhile_all {p : Char → Bool} (l : List Char)
    (h : ∀ c ∈ l, p c = true) : l.takeWhile p = l := by
  induction l with
  | nil => rfl
  | cons x xs ih =>
    have hx : p x = true := h x (List.mem_cons_self x xs)
    simp only [List.takeWhile_cons, hx, if_true]
    rw [ih (fun c hc => h c (List.mem_cons_of_mem x hc))]

lemma dropWhile_all {p : Char → Bool} (l : List Char)
    (h : ∀ c ∈ l, p c = true) : l.dropWhile p = [] := by
  induction l with
  | nil => rfl
  | cons x xs ih =>
    have hx : p x = true := h x (List.mem_cons_self x xs)
    simp only [List.dropWhile_cons, hx, if_true]
    exact ih (fun c hc => h c (List.mem_cons_of_mem x hc))

lemma match3Groups_eq (sep : Char) (a b c : List Char)
    (ha : ∀ x ∈ a, x.isDigit = true) (hb : ∀ x ∈ b, x.isDigit = true)
    (hc : ∀ x ∈ c, x.isDigit = true)
    (hna : a ≠ []) (hnb : b ≠ []) (hnc : c ≠ [])
    (hsep : sep.isDigit = false) :
    match3Groups sep (a ++ (sep :: (b ++ (sep :: c)))) = some (a, b, c) := by
  unfold match3Groups
  rw [dropWhile_append_all a _ ha, dropWhile_cons_neg sep _ hsep]
  dsimp only
  rw [if_pos rfl]
  rw [dropWhile_append_all b _ hb, dropWhile_cons_neg sep _ hsep]
  dsimp only
  rw [if_pos rfl]
  rw [dropWhile_all c hc]
  dsimp only
  rw [takeWhile_append_all a _ ha, takeWhile_cons_neg sep _ hsep,
    takeWhile_append_all b _ hb, takeWhile_cons_neg sep _ hsep,
    takeWhile_all c hc, List.append_nil, List.append_nil]
  rw [if_neg]
  simp only [Bool.or_eq_true, List.isEmpty_iff]
  intro hcon
  rcases hcon with (h | h) | h
  · exact hna h
  · exact hnb h
  · exact hnc h

lemma match3Groups_sep_mismatch (sep other : Char) (a rest : List Char)
    (ha : ∀ x ∈ a, x.isDigit = true) (hother : other.isDigit = false)
    (hne : other ≠ sep) :
    match3Groups sep (a ++ (other :: rest)) = none := by
  unfold match3Groups
  rw [dropWhile_append_all a _ ha, dropWhile_cons_neg other _ hother]
  dsimp only
  rw [if_neg hne]

/-! ## Character-class and trim lemmas -/

lemma dropWhile_eq_self_of_all_neg {p : Char → Bool} (l : List Char)
    (h : ∀ c ∈ l, p c = false) : l.dropWhile p = l := by
  cases l with
  | nil => rfl
  | cons x xs => exact dropWhile_cons_neg x xs (h x (List.mem_cons_self x xs))

lemma trimChars_eq_self_of_no_ws (l : List Char)
    (h : ∀ c ∈ l, isWSChar c = false) : trimChars l = l := by
  unfold trimChars
  rw [dropWhile_eq_self_of_all_neg l h,
    dropWhile_eq_self_of_all_neg l.reverse
      (fun c hc => h c (List.mem_reverse.mp hc)),
    List.reverse_reverse]

lemma ne_of_isDigit (c k : Char) (h : c.isDigit = true)
    (hk : k.isDigit = false) : c ≠ k := by
  intro he
  rw [he, hk] at h
  cases h

lemma isWSChar_false_of_isDigit (c : Char) (h : c.isDigit = true) :
    isWSChar c = false := by
  by_contra hcon
  have hws : isWSChar c = true := by
    cases hws : isWSChar c
    · exact absurd hws hcon
    · rfl
  unfold isWSChar at hws
  simp only [Bool.or_eq_true, beq_iff_eq] at hws
  rcases hws with ((rfl | rfl) | rfl) | rfl <;> exact absurd h (by decide)

lemma koreanMatchAt_nyeon (l : List Char) (r : Nat × Nat × Nat)
    (h : koreanMatchAt l = some r) : '년' ∈ l := by
  unfold koreanMatchAt at h
  split at h
  · split at h
    · rename_i r1 heq
      have hmem : '년' ∈ l.drop 4 := by
        rw [heq]
        exact List.mem_cons_self _ _
      exact List.mem_of_mem_drop hmem
    · exact absurd h (by simp)
  · exact absurd h (by simp)

lemma koreanFind_none (l : List Char) (h : '년' ∉ l) : koreanFind l = none := by
  induction l with
  | nil => rfl
  | cons c cs ih =>
    unfold koreanFind
    cases hm : koreanMatchAt (c :: cs) with
    | some r => exact absurd (koreanMatchAt_nyeon _ r hm) h
    | none => exact ih (fun hmem => h (List.mem_cons_of_mem c hmem))

/-! ## Claim C5: slash-format disambiguation -/

/-- C5: every trimmed slash-separated all-digit input
`(1-4 digits)/(1-2 digits)/(1-4 digits)` reaches recognizer 6 and is
disambiguated by field lengths — first group of length 4 reads
`YYYY/MM/DD`; else a third group of length at most 2 reads `MM/DD/YY`
with the 2-digit year expanded by the clock's century
`floor(currentYear/100)*100`; else `MM/DD/YYYY` — and the resulting
Calendar Date is built from those three integers through Temporal's
constraining constructor. -/
theorem slashFormat_disambiguation (a b c : List Char) (cy : Nat)
    (ha : ∀ x ∈ a, x.isDigit = true) (hb : ∀ x ∈ b, x.isDigit = true)
    (hc : ∀ x ∈ c, x.isDigit = true)
    (hla1 : 1 ≤ a.length) (hla4 : a.length ≤ 4)
    (hlb1 : 1 ≤ b.length) (hlb2 : b.length ≤ 2)
    (hlc1 : 1 ≤ c.length) (hlc4 : c.length ≤ 4) :
    parseFlexibleDateString (String.mk (a ++ ('/' :: (b ++ ('/' :: c))))) cy =
      .ok (.plainDate
        (if a.length = 4 then
          plainDateConstrain (natFromDigits a) (natFromDigits b)
            (natFromDigits c)
        else if c.length ≤ 2 then
          plainDateConstrain (centuryOf cy + natFromDigits c)
            (natFromDigits a) (natFromDigits b)
        else
          plainDateConstrain (natFromDigits c) (natFromDigits a)
            (natFromDigits b))) := by
  have hchar : ∀ x ∈ a ++ ('/' :: (b ++ ('/' :: c))),
      x.isDigit = true ∨ x = '/' := by
    intro x hx
    rcases List.mem_append.mp hx with hm | hm
    · exact Or.inl (ha x hm)
    · rcases List.mem_cons.mp hm with rfl | hm2
      · exact Or.inr rfl
      · rcases List.mem_append.mp hm2 with hm3 | hm3
        · exact Or.inl (hb x hm3)
        · rcases List.mem_cons.mp hm3 with rfl | hm4
          · exact Or.inr rfl
          · exact Or.inl (hc x hm4)
  have hws : ∀ x ∈ a ++ ('/' :: (b ++ ('/' :: c))), isWSChar x = false := by
    intro x hx
    rcases hchar x hx with hd | rfl
    · exact isWSChar_false_of_isDigit x hd
    · decide
  have hT : (a ++ ('/' :: (b ++ ('/' :: c)))).contains 'T' = false := by
    apply contains_eq_false_of_not_mem
    intro hmem
    rcases hchar 'T' hmem with hd | he
    · exact absurd hd (by decide)
    · exact absurd he (by decide)
  have htrim : trimChars (a ++ ('/' :: (b ++ ('/' :: c)))) =
      a ++ ('/' :: (b ++ ('/' :: c))) :=
    trimChars_eq_self_of_no_ws _ hws
  have hdash : dashRegexMatch (a ++ ('/' :: (b ++ ('/' :: c)))) = none := by
    unfold dashRegexMatch
    rw [match3Groups_sep_mismatch '-' '/' a _ ha (by decide) (by decide)]
  have hnyeon : koreanFind (a ++ ('/' :: (b ++ ('/' :: c)))) = none := by
    apply koreanFind_none
    intro hmem
    rcases hchar '년' hmem with hd | he
    · exact absurd hd (by decide)
    · exact absurd he (by decide)
  have hdot : dotRegexMatch (a ++ ('/' :: (b ++ ('/' :: c)))) = none := by
    unfold dotRegexMatch
    rw [match3Groups_sep_mismatch '.' '/' a _ ha (by decide) (by decide)]
  have hslash : slashRegexMatch (a ++ ('/' :: (b ++ ('/' :: c)))) =
      some (a, b, c) := by
    unfold slashRegexMatch
    rw [match3Groups_eq '/' a b c ha hb hc
      (by intro hcon; rw [hcon] at hla1; simp at hla1)
      (by intro hcon; rw [hcon] at hlb1; simp at hlb1)
      (by intro hcon; rw [hcon] at hlc1; simp at hlc1) (by decide)]
    dsimp only
    rw [if_pos (⟨hla1, hla4, hlb1, hlb2, hlc1, hlc4⟩ :
      1 ≤ a.length ∧ a.length ≤ 4 ∧ 1 ≤ b.length ∧ b.length ≤ 2 ∧
        1 ≤ c.length ∧ c.length ≤ 4)]
  show parseFlexibleTrimmed (centuryOf cy) _
      (trimChars (a ++ ('/' :: (b ++ ('/' :: c))))) = _
  rw [htrim]
  unfold parseFlexibleTrimmed
  rw [hT]
  simp only [Bool.false_and, Bool.false_eq_true, if_false]
  rw [hdash, hnyeon, hdot, hslash]
  dsimp only
  split_ifs with h1 h2 <;> rfl

/-- Witness for C5 on the input 01/15/24 with clock year 2024: the
fields read as MM/DD/YY giving 2024-01-15. -/
theorem slashFormat_disambiguation_witness :
    ((∀ x ∈ ['0', '1'], Char.isDigit x = true) ∧
      (∀ x ∈ ['1', '5'], Char.isDigit x = true) ∧
      (∀ x ∈ ['2', '4'], Char.isDigit x = true)) ∧
    parseFlexibleDateString
        (String.mk (['0', '1'] ++ ('/' :: (['1', '5'] ++ ('/' :: ['2', '4'])))))
        2024 =
      .ok (.plainDate
        (if (['0', '1'] : List Char).length = 4 then
          plainDateConstrain (natFromDigits ['0', '1'])
            (natFromDigits ['1', '5']) (natFromDigits ['2', '4'])
        else if (['2', '4'] : List Char).length ≤ 2 then
          plainDateConstrain (centuryOf 2024 + natFromDigits ['2', '4'])
            (natFromDigits ['0', '1']) (natFromDigits ['1', '5'])
        else
          plainDateConstrain (natFromDigits ['2', '4'])
            (natFromDigits ['0', '1']) (natFromDigits ['1', '5']))) :=
  ⟨⟨by decide, by decide, by decide⟩,
    slashFormat_disambiguation ['0', '1'] ['1', '5'] ['2', '4'] 2024
      (by decide) (by decide) (by decide) (by decide) (by decide)
      (by decide) (by decide) (by decide) (by decide)⟩

/-! ## Claim C6: canonical ISO date round-trip -/

lemma daysInMonth_le_31 (y m : Nat) : daysInMonth y m ≤ 31 := by
  unfold daysInMonth
  split_ifs <;> omega

lemma length_eq_four {α : Type} (l : List α) (h : l.length = 4) :
    ∃ a b c d, l = [a, b, c, d] := by
  rcases l with _ | ⟨a, _ | ⟨b, _ | ⟨c, _ | ⟨d, _ | ⟨e, t⟩⟩⟩⟩⟩
  · simp at h
  · simp at h
  · simp at h
  · simp at h
  · exact ⟨a, b, c, d, rfl⟩
  · simp at h

lemma length_eq_two {α : Type} (l : List α) (h : l.length = 2) :
    ∃ a b, l = [a, b] := by
  rcases l with _ | ⟨a, _ | ⟨b, _ | ⟨c, t⟩⟩⟩
  · simp at h
  · simp at h
  · exact ⟨a, b, rfl⟩
  · simp at h

lemma parseIsoDateChars_render (d : PlainDate) (hv : validDate d)
    (h9999 : d.year ≤ 9999) :
    parseIsoDateChars (padNat 4 d.year ++
      ('-' :: (padNat 2 d.month ++ ('-' :: padNat 2 d.day)))) = some d := by
  obtain ⟨hy, hm1, hm2, hd1, hd2⟩ := hv
  have hd31 : d.day ≤ 31 := Nat.le_trans hd2 (daysInMonth_le_31 _ _)
  obtain ⟨y1, y2, y3, y4, hY⟩ := length_eq_four (padNat 4 d.year)
    (padNat_length 4 d.year (by omega) (by omega))
  obtain ⟨m1, m2, hM⟩ := length_eq_two (padNat 2 d.month)
    (padNat_length 2 d.month (by omega) (by omega))
  obtain ⟨e1, e2, hD⟩ := length_eq_two (padNat 2 d.day)
    (padNat_length 2 d.day (by omega) (by omega))
  have hYd := padNat_all_isDigit 4 d.year
  have hMd := padNat_all_isDigit 2 d.month
  have hDd := padNat_all_isDigit 2 d.day
  rw [hY] at hYd
  rw [hM] at hMd
  rw [hD] at hDd
  rw [hY, hM, hD]
  show parseIsoDateChars [y1, y2, y3, y4, '-', m1, m2, '-', e1, e2] = some d
  have hdig : ([y1, y2, y3, y4, m1, m2, e1, e2].all Char.isDigit) = true := by
    apply List.all_eq_true.mpr
    intro c hc
    simp only [List.mem_cons, List.not_mem_nil, or_false] at hc
    rcases hc with rfl | rfl | rfl | rfl | rfl | rfl | rfl | rfl
    · exact hYd c (by simp)
    · exact hYd c (by simp)
    · exact hYd c (by simp)
    · exact hYd c (by simp)
    · exact hMd c (by simp)
    · exact hMd c (by simp)
    · exact hDd c (by simp)
    · exact hDd c (by simp)
  show (if ([y1, y2, y3, y4, m1, m2, e1, e2].all Char.isDigit) = true then
      plainDateStrict (natFromDigits [y1, y2, y3, y4]) (natFromDigits [m1, m2])
        (natFromDigits [e1, e2])
    else none) = some d
  rw [if_pos hdig]
  have hYv : natFromDigits [y1, y2, y3, y4] = d.year := by
    rw [← hY]
    exact natFromDigits_padNat 4 d.year
  have hMv : natFromDigits [m1, m2] = d.month := by
    rw [← hM]
    exact natFromDigits_padNat 2 d.month
  have hDv : natFromDigits [e1, e2] = d.day := by
    rw [← hD]
    exact natFromDigits_padNat 2 d.day
  rw [hYv, hMv, hDv]
  unfold plainDateStrict
  rw [if_pos ⟨hy, hm1, hm2, hd1, hd2⟩]

lemma renderDate_eq (d : PlainDate) (h9999 : d.year ≤ 9999) :
    renderDate d = padNat 4 d.year ++
      ('-' :: (padNat 2 d.month ++ ('-' :: padNat 2 d.day))) := by
  unfold renderDate
  rw [if_pos h9999]
  simp [List.append_assoc]

lemma parseFlexible_render (d : PlainDate) (hv : validDate d)
    (h9999 : d.year ≤ 9999) (cy : Nat) :
    parseFlexibleDateString d.render cy = .ok (.plainDate d) := by
  obtain ⟨hy, hm1, hm2, hd1, hd2⟩ := hv
  have hd31 : d.day ≤ 31 := Nat.le_trans hd2 (daysInMonth_le_31 _ _)
  have hY4 : (padNat 4 d.year).length = 4 :=
    padNat_length 4 d.year (by omega) (by omega)
  have hM2 : (padNat 2 d.month).length = 2 :=
    padNat_length 2 d.month (by omega) (by omega)
  have hD2 : (padNat 2 d.day).length = 2 :=
    padNat_length 2 d.day (by omega) (by omega)
  have hYd := padNat_all_isDigit 4 d.year
  have hMd := padNat_all_isDigit 2 d.month
  have hDd := padNat_all_isDigit 2 d.day
  have hchar : ∀ x ∈ padNat 4 d.year ++
      ('-' :: (padNat 2 d.month ++ ('-' :: padNat 2 d.day))),
      x.isDigit = true ∨ x = '-' := by
    intro x hx
    rcases List.mem_append.mp hx with hm | hm
    · exact Or.inl (hYd x hm)
    · rcases List.mem_cons.mp hm with rfl | hm2
      · exact Or.inr rfl
      · rcases List.mem_append.mp hm2 with hm3 | hm3
        · exact Or.inl (hMd x hm3)
        · rcases List.mem_cons.mp hm3 with rfl | hm4
          · exact Or.inr rfl
          · exact Or.inl (hDd x hm4)
  have hws : ∀ x ∈ padNat 4 d.year ++
      ('-' :: (padNat 2 d.month ++ ('-' :: padNat 2 d.day))),
      isWSChar x = false := by
    intro x hx
    rcases hchar x hx with hdg | rfl
    · exact isWSChar_false_of_isDigit x hdg
    · decide
  have hT : (padNat 4 d.year ++
      ('-' :: (padNat 2 d.month ++ ('-' :: padNat 2 d.day)))).contains 'T' =
      false := by
    apply contains_eq_false_of_not_mem
    intro hmem
    rcases hchar 'T' hmem with hdg | he
    · exact absurd hdg (by decide)
    · exact absurd he (by decide)
  have htrim : trimChars (padNat 4 d.year ++
      ('-' :: (padNat 2 d.month ++ ('-' :: padNat 2 d.day)))) =
      padNat 4 d.year ++ ('-' :: (padNat 2 d.month ++ ('-' :: padNat 2 d.day))) :=
    trimChars_eq_self_of_no_ws _ hws
  have hdash : dashRegexMatch (padNat 4 d.year ++
      ('-' :: (padNat 2 d.month ++ ('-' :: padNat 2 d.day)))) =
      some (padNat 4 d.year, padNat 2 d.month, padNat 2 d.day) := by
    unfold dashRegexMatch
    rw [match3Groups_eq '-' _ _ _ hYd hMd hDd
      (by intro hcon; rw [hcon] at hY4; simp at hY4)
      (by intro hcon; rw [hcon] at hM2; simp at hM2)
      (by intro hcon; rw [hcon] at hD2; simp at hD2) (by decide)]
    dsimp only
    rw [if_pos (⟨hY4, by omega, by omega, by omega, by omega⟩ :
      (padNat 4 d.year).length = 4 ∧ 1 ≤ (padNat 2 d.month).length ∧
      (padNat 2 d.month).length ≤ 2 ∧ 1 ≤ (padNat 2 d.day).length ∧
      (padNat 2 d.day).length ≤ 2)]
  have hiso := parseIsoDateChars_render d ⟨hy, hm1, hm2, hd1, hd2⟩ h9999
  show parseFlexibleTrimmed (centuryOf cy) _ (trimChars (renderDate d)) = _
  rw [renderDate_eq d h9999, htrim]
  unfold parseFlexibleTrimmed
  rw [hT]
  simp only [Bool.false_and, Bool.false_eq_true, if_false]
  rw [hdash]
  dsimp only
  rw [hiso]

/-- C6: on every canonical ISO calendar-date string — the canonical
rendering `YYYY-MM-DD` of a valid date with a four-digit year —
`format(s, "date")` parses the string back to the same Calendar Date and
re-renders it unchanged. -/
theorem format_date_canonical_roundtrip (d : PlainDate) (hv : validDate d)
    (h9999 : d.year ≤ 9999) (cy : Nat) :
    format (.str d.render) ("date") none cy = .ok d.render := by
  have hparse := parseFlexible_render d hv h9999 cy
  simp only [format]
  rw [hparse]
  rfl

/-- Witness for C6 at the canonical string of 2024-01-15. -/
theorem format_date_canonical_roundtrip_witness :
    (validDate ⟨2024, 1, 15⟩ ∧ (2024 : Nat) ≤ 9999) ∧
    format (.str (PlainDate.render ⟨2024, 1, 15⟩)) ("date") none 2025 =
      .ok (PlainDate.render ⟨2024, 1, 15⟩) :=
  ⟨⟨by decide, by decide⟩,
    format_date_canonical_roundtrip ⟨2024, 1, 15⟩ (by decide) (by decide) 2025⟩

/-! ## Token-replacement lemmas and claim C7 -/

lemma replaceAllAux_congr (pat rep : List Char) :
    ∀ (n : Nat) (s : List Char) (f1 f2 : Nat), s.length = n →
    s.length ≤ f1 → s.length ≤ f2 →
    replaceAllAux pat rep f1 s = replaceAllAux pat rep f2 s := by
  intro n
  induction n using Nat.strong_induction_on with
  | _ n ih =>
    intro s f1 f2 hn h1 h2
    cases s with
    | nil =>
      cases f1 <;> cases f2 <;> rfl
    | cons c cs =>
      obtain ⟨g1, rfl⟩ : ∃ g, f1 = g + 1 := ⟨f1 - 1, by simp at h1; omega⟩
      obtain ⟨g2, rfl⟩ : ∃ g, f2 = g + 1 := ⟨f2 - 1, by simp at h2; omega⟩
      show (if !pat.isEmpty && pat.isPrefixOf (c :: cs) then
          rep ++ replaceAllAux pat rep g1 (cs.drop (pat.length - 1))
        else c :: replaceAllAux pat rep g1 cs) =
        (if !pat.isEmpty && pat.isPrefixOf (c :: cs) then
          rep ++ replaceAllAux pat rep g2 (cs.drop (pat.length - 1))
        else c :: replaceAllAux pat rep g2 cs)
      simp only [List.length_cons] at h1 h2 hn
      by_cases hcond : (!pat.isEmpty && pat.isPrefixOf (c :: cs)) = true
      · rw [if_pos hcond, if_pos hcond]
        have hplen : 1 ≤ pat.length := by
          cases pat with
          | nil => simp at hcond
          | cons p ps => simp
        have hdl : (cs.drop (pat.length - 1)).length ≤ cs.length := by
          rw [List.length_drop]
          omega
        rw [ih (cs.drop (pat.length - 1)).length (by omega) _ g1 g2 rfl
          (by omega) (by omega)]
      · rw [if_neg hcond, if_neg hcond]
        rw [ih cs.length (by omega) cs g1 g2 rfl (by omega) (by omega)]

lemma replaceAll_cons_pos (pat rep : List Char) (c : Char) (cs : List Char)
    (hcond : (!pat.isEmpty && pat.isPrefixOf (c :: cs)) = true) :
    replaceAll pat rep (c :: cs) =
      rep ++ replaceAll pat rep (cs.drop (pat.length - 1)) := by
  show replaceAllAux pat rep (cs.length + 1) (c :: cs) = _
  show (if !pat.isEmpty && pat.isPrefixOf (c :: cs) then
      rep ++ replaceAllAux pat rep cs.length (cs.drop (pat.length - 1))
    else c :: replaceAllAux pat rep cs.length cs) = _
  rw [if_pos hcond]
  unfold replaceAll
  rw [replaceAllAux_congr pat rep (cs.drop (pat.length - 1)).length
    (cs.drop (pat.length - 1)) cs.length (cs.drop (pat.length - 1)).length rfl
    (by rw [List.length_drop]; omega) (Nat.le_refl _)]

lemma replaceAll_cons_neg (pat rep : List Char) (c : Char) (cs : List Char)
    (hcond : (!pat.isEmpty && pat.isPrefixOf (c :: cs)) = false) :
    replaceAll pat rep (c :: cs) = c :: replaceAll pat rep cs := by
  show replaceAllAux pat rep (cs.length + 1) (c :: cs) = _
  show (if !pat.isEmpty && pat.isPrefixOf (c :: cs) then
      rep ++ replaceAllAux pat rep cs.length (cs.drop (pat.length - 1))
    else c :: replaceAllAux pat rep cs.length cs) = _
  rw [if_neg (by rw [hcond]; simp)]
  rfl

lemma replaceAll_cons_skip (p0 : Char) (pt rep : List Char) (c : Char)
    (cs : List Char) (hne : c ≠ p0) :
    replaceAll (p0 :: pt) rep (c :: cs) = c :: replaceAll (p0 :: pt) rep cs := by
  apply replaceAll_cons_neg
  have h1 : (p0 == c) = false := by
    simp only [beq_eq_false_iff_ne, ne_eq]
    intro hcon
    exact hne hcon.symm
  show (!(p0 :: pt).isEmpty && List.isPrefixOf (p0 :: pt) (c :: cs)) = false
  simp [List.isPrefixOf, h1]

lemma replaceAll_skip_front (p0 : Char) (pt rep a b : List Char)
    (ha : p0 ∉ a) :
    replaceAll (p0 :: pt) rep (a ++ b) = a ++ replaceAll (p0 :: pt) rep b := by
  induction a with
  | nil => rfl
  | cons x xs ih =>
    have hx : x ≠ p0 := by
      intro hcon
      exact ha (by rw [← hcon]; exact List.mem_cons_self x xs)
    show replaceAll (p0 :: pt) rep (x :: (xs ++ b)) = _
    rw [replaceAll_cons_skip p0 pt rep x (xs ++ b) hx,
      ih (fun hmem => ha (List.mem_cons_of_mem x hmem))]
    rfl

lemma replaceAll_no_occur (p0 : Char) (pt rep : List Char) (l : List Char)
    (h : p0 ∉ l) : replaceAll (p0 :: pt) rep l = l := by
  induction l with
  | nil => rfl
  | cons x xs ih =>
    have hx : x ≠ p0 := by
      intro hcon
      exact h (by rw [← hcon]; exact List.mem_cons_self x xs)
    rw [replaceAll_cons_skip p0 pt rep x xs hx,
      ih (fun hmem => h (List.mem_cons_of_mem x hmem))]

lemma not_mem_of_all_isDigit (p0 : Char) (l : List Char)
    (hl : ∀ c ∈ l, c.isDigit = true) (hp : p0.isDigit = false) : p0 ∉ l := by
  intro hmem
  rw [hl p0 hmem] at hp
  cases hp

lemma replaceAll_skip_digits (p0 : Char) (pt rep a b : List Char)
    (ha : ∀ c ∈ a, c.isDigit = true) (hp : p0.isDigit = false) :
    replaceAll (p0 :: pt) rep (a ++ b) = a ++ replaceAll (p0 :: pt) rep b :=
  replaceAll_skip_front p0 pt rep a b (not_mem_of_all_isDigit p0 a ha hp)

lemma korean_chars_classify (pd : PlainDate) :
    ∀ c ∈ padNat 4 pd.year ++
      ('년' :: ' ' :: (natDigits pd.month ++
        ('월' :: ' ' :: (natDigits pd.day ++ ['일'])))),
      c.isDigit = true ∨ c = '년' ∨ c = ' ' ∨ c = '월' ∨ c = '일' := by
  intro c hc
  rcases List.mem_append.mp hc with hm | hm
  · exact Or.inl (padNat_all_isDigit 4 pd.year c hm)
  · rcases List.mem_cons.mp hm with rfl | hm
    · exact Or.inr (Or.inl rfl)
    · rcases List.mem_cons.mp hm with rfl | hm
      · exact Or.inr (Or.inr (Or.inl rfl))
      · rcases List.mem_append.mp hm with hm | hm
        · exact Or.inl (natDigits_all_isDigit pd.month c hm)
        · rcases List.mem_cons.mp hm with rfl | hm
          · exact Or.inr (Or.inr (Or.inr (Or.inl rfl)))
          · rcases List.mem_cons.mp hm with rfl | hm
            · exact Or.inr (Or.inr (Or.inl rfl))
            · rcases List.mem_append.mp hm with hm | hm
              · exact Or.inl (natDigits_all_isDigit pd.day c hm)
              · rcases List.mem_cons.mp hm with rfl | hm
                · exact Or.inr (Or.inr (Or.inr (Or.inr rfl)))
                · exact absurd hm (List.not_mem_nil c)

lemma formatCustom_korean (v : TemporalValue) :
    formatCustom v ("YYYY년 M월 D일") =
      String.mk (padNat 4 v.toPlainDate.year ++
        ('년' :: ' ' :: (natDigits v.toPlainDate.month ++
          ('월' :: ' ' :: (natDigits v.toPlainDate.day ++ ['일']))))) := by
  have hY := padNat_all_isDigit 4 v.toPlainDate.year
  have hMo := natDigits_all_isDigit v.toPlainDate.month
  have hDd := natDigits_all_isDigit v.toPlainDate.day
  have e1 : replaceAll (("YYYY").toList) (padNat 4 v.toPlainDate.year)
      (("YYYY년 M월 D일").toList) =
      padNat 4 v.toPlainDate.year ++ (("년 M월 D일").toList) := rfl
  have e2 : replaceAll (("YY").toList)
      (padNat 2 (v.toPlainDate.year % 100))
      (padNat 4 v.toPlainDate.year ++ (("년 M월 D일").toList)) =
      padNat 4 v.toPlainDate.year ++ (("년 M월 D일").toList) := by
    rw [show ("YY").toList = 'Y' :: ['Y'] from rfl]
    rw [replaceAll_skip_digits 'Y' ['Y'] _ _ _ hY (by decide)]
    rfl
  have e3 : replaceAll (("MM").toList) (padNat 2 v.toPlainDate.month)
      (padNat 4 v.toPlainDate.year ++ (("년 M월 D일").toList)) =
      padNat 4 v.toPlainDate.year ++ (("년 M월 D일").toList) := by
    rw [show ("MM").toList = 'M' :: ['M'] from rfl]
    rw [replaceAll_skip_digits 'M' ['M'] _ _ _ hY (by decide)]
    rfl
  have e4 : replaceAll (("M").toList) (natDigits v.toPlainDate.month)
      (padNat 4 v.toPlainDate.year ++ (("년 M월 D일").toList)) =
      padNat 4 v.toPlainDate.year ++
        ('년' :: ' ' :: (natDigits v.toPlainDate.month ++
          (("월 D일").toList))) := by
    rw [show ("M").toList = 'M' :: ([] : List Char) from rfl]
    rw [replaceAll_skip_digits 'M' [] _ _ _ hY (by decide)]
    rfl
  have e5 : replaceAll (("DD").toList) (padNat 2 v.toPlainDate.day)
      (padNat 4 v.toPlainDate.year ++
        ('년' :: ' ' :: (natDigits v.toPlainDate.month ++
          (("월 D일").toList)))) =
      padNat 4 v.toPlainDate.year ++
        ('년' :: ' ' :: (natDigits v.toPlainDate.month ++
          (("월 D일").toList))) := by
    rw [show ("DD").toList = 'D' :: ['D'] from rfl]
    rw [replaceAll_skip_digits 'D' ['D'] _ _ _ hY (by decide)]
    rw [replaceAll_cons_skip 'D' ['D'] _ '년' _ (by decide)]
    rw [replaceAll_cons_skip 'D' ['D'] _ ' ' _ (by decide)]
    rw [replaceAll_skip_digits 'D' ['D'] _ _ _ hMo (by decide)]
    rfl
  have e6 : replaceAll (("D").toList) (natDigits v.toPlainDate.day)
      (padNat 4 v.toPlainDate.year ++
        ('년' :: ' ' :: (natDigits v.toPlainDate.month ++
          (("월 D일").toList)))) =
      padNat 4 v.toPlainDate.year ++
        ('년' :: ' ' :: (natDigits v.toPlainDate.month ++
          ('월' :: ' ' :: (natDigits v.toPlainDate.day ++ ['일'])))) := by
    rw [show ("D").toList = 'D' :: ([] : List Char) from rfl]
    rw [replaceAll_skip_digits 'D' [] _ _ _ hY (by decide)]
    rw [replaceAll_cons_skip 'D' [] _ '년' _ (by decide)]
    rw [replaceAll_cons_skip 'D' [] _ ' ' _ (by decide)]
    rw [replaceAll_skip_digits 'D' [] _ _ _ hMo (by decide)]
    rfl
  have hLmem := korean_chars_classify v.toPlainDate
  have hLskip : ∀ (p0 : Char) (pt rep : List Char), p0.isDigit = false →
      ¬(p0 = '년' ∨ p0 = ' ' ∨ p0 = '월' ∨ p0 = '일') →
      replaceAll (p0 :: pt) rep
        (padNat 4 v.toPlainDate.year ++
          ('년' :: ' ' :: (natDigits v.toPlainDate.month ++
            ('월' :: ' ' :: (natDigits v.toPlainDate.day ++ ['일']))))) =
        padNat 4 v.toPlainDate.year ++
          ('년' :: ' ' :: (natDigits v.toPlainDate.month ++
            ('월' :: ' ' :: (natDigits v.toPlainDate.day ++ ['일'])))) := by
    intro p0 pt rep hp hne
    apply replaceAll_no_occur
    intro hmem
    rcases hLmem p0 hmem with hdg | hch
    · rw [hdg] at hp
      cases hp
    · exact hne hch
  simp only [formatCustom]
  cases htod : v.timeOfDay with
  | none =>
    dsimp only
    rw [e1, e2, e3, e4, e5, e6]
  | some t =>
    dsimp only
    rw [e1, e2, e3, e4, e5, e6]
    rw [show ("HH").toList = 'H' :: ['H'] from rfl,
      hLskip 'H' ['H'] _ (by decide) (by decide)]
    rw [show ("H").toList = 'H' :: ([] : List Char) from rfl,
      hLskip 'H' [] _ (by decide) (by decide)]
    rw [show ("mm").toList = 'm' :: ['m'] from rfl,
      hLskip 'm' ['m'] _ (by decide) (by decide)]
    rw [show ("m").toList = 'm' :: ([] : List Char) from rfl,
      hLskip 'm' [] _ (by decide) (by decide)]
    rw [show ("ss").toList = 's' :: ['s'] from rfl,
      hLskip 's' ['s'] _ (by decide) (by decide)]
    rw [show ("s").toList = 's' :: ([] : List Char) from rfl,
      hLskip 's' [] _ (by decide) (by decide)]

lemma dropWhile_cons_pos {p : Char → Bool} (x : Char) (xs : List Char)
    (h : p x = true) : (x :: xs).dropWhile p = xs.dropWhile p := by
  simp [List.dropWhile, h]

lemma dropWhile_append_neg_head {p : Char → Bool} (a b : List Char)
    (ha : a ≠ []) (h : ∀ x ∈ a, p x = false) :
    (a ++ b).dropWhile p = a ++ b := by
  cases a with
  | nil => exact absurd rfl ha
  | cons x xs =>
    rw [List.cons_append, dropWhile_cons_neg x _ (h x (List.mem_cons_self x xs))]

lemma trimChars_sandwich (c : Char) (mid : List Char) (e : Char)
    (hc : isWSChar c = false) (he : isWSChar e = false) :
    trimChars (c :: (mid ++ [e])) = c :: (mid ++ [e]) := by
  unfold trimChars
  rw [dropWhile_cons_neg c _ hc]
  have h1 : (c :: (mid ++ [e])).reverse = e :: (mid.reverse ++ [c]) := by
    simp
  rw [h1, dropWhile_cons_neg e _ he, ← h1, List.reverse_reverse]

lemma koreanMatchAt_eval (y1 y2 y3 y4 : Char) (Mo Dd : List Char)
    (hy1 : y1.isDigit = true) (hy2 : y2.isDigit = true)
    (hy3 : y3.isDigit = true) (hy4 : y4.isDigit = true)
    (hMo1 : 1 ≤ Mo.length) (hMo2 : Mo.length ≤ 2)
    (hMod : ∀ x ∈ Mo, x.isDigit = true)
    (hDd1 : 1 ≤ Dd.length) (hDd2 : Dd.length ≤ 2)
    (hDdd : ∀ x ∈ Dd, x.isDigit = true) :
    koreanMatchAt (y1 :: y2 :: y3 :: y4 ::
        ('년' :: ' ' :: (Mo ++ ('월' :: ' ' :: (Dd ++ ['일']))))) =
      some (natFromDigits [y1, y2, y3, y4], natFromDigits Mo,
        natFromDigits Dd) := by
  have hMoNe : Mo ≠ [] := by
    intro hcon
    rw [hcon] at hMo1
    simp at hMo1
  have hDdNe : Dd ≠ [] := by
    intro hcon
    rw [hcon] at hDd1
    simp at hDd1
  have ht : (y1 :: y2 :: y3 :: y4 ::
      ('년' :: ' ' :: (Mo ++ ('월' :: ' ' :: (Dd ++ ['일']))))).take 4 =
      [y1, y2, y3, y4] := rfl
  have hd : (y1 :: y2 :: y3 :: y4 ::
      ('년' :: ' ' :: (Mo ++ ('월' :: ' ' :: (Dd ++ ['일']))))).drop 4 =
      '년' :: ' ' :: (Mo ++ ('월' :: ' ' :: (Dd ++ ['일']))) := rfl
  have hws1 : (' ' :: (Mo ++ ('월' :: ' ' :: (Dd ++ ['일'])))).dropWhile
      isWSChar = Mo ++ ('월' :: ' ' :: (Dd ++ ['일'])) := by
    rw [dropWhile_cons_pos ' ' _ (by decide)]
    exact dropWhile_append_neg_head Mo _ hMoNe
      (fun x hx => isWSChar_false_of_isDigit x (hMod x hx))
  have htk1 : (Mo ++ ('월' :: ' ' :: (Dd ++ ['일']))).takeWhile Char.isDigit =
      Mo := by
    rw [takeWhile_append_all Mo _ hMod, takeWhile_cons_neg _ _ (by decide),
      List.append_nil]
  have hdr1 : (Mo ++ ('월' :: ' ' :: (Dd ++ ['일']))).dropWhile Char.isDigit =
      '월' :: ' ' :: (Dd ++ ['일']) := by
    rw [dropWhile_append_all Mo _ hMod, dropWhile_cons_neg _ _ (by decide)]
  have hws2 : (' ' :: (Dd ++ ['일'])).dropWhile isWSChar = Dd ++ ['일'] := by
    rw [dropWhile_cons_pos ' ' _ (by decide)]
    exact dropWhile_append_neg_head Dd _ hDdNe
      (fun x hx => isWSChar_false_of_isDigit x (hDdd x hx))
  have htk2 : (Dd ++ ['일']).takeWhile Char.isDigit = Dd := by
    rw [takeWhile_append_all Dd _ hDdd, takeWhile_cons_neg _ _ (by decide),
      List.append_nil]
  have hdr2 : (Dd ++ ['일']).dropWhile Char.isDigit = ['일'] := by
    rw [dropWhile_append_all Dd _ hDdd, dropWhile_cons_neg _ _ (by decide)]
  unfold koreanMatchAt
  rw [ht, hd]
  rw [if_pos (⟨rfl, by simp [hy1, hy2, hy3, hy4]⟩ :
    ([y1, y2, y3, y4] : List Char).length = 4 ∧
      ([y1, y2, y3, y4].all Char.isDigit) = true)]
  simp only
  rw [hws1, htk1, hdr1]
  rw [if_pos (⟨hMo1, hMo2⟩ : 1 ≤ Mo.length ∧ Mo.length ≤ 2)]
  simp only
  rw [hws2, htk2, hdr2]
  rw [if_pos (⟨hDd1, hDd2⟩ : 1 ≤ Dd.length ∧ Dd.length ≤ 2)]
  simp only

lemma koreanFind_head (l : List Char) (r : Nat × Nat × Nat)
    (hne : l ≠ []) (h : koreanMatchAt l = some r) : koreanFind l = some r := by
  cases l with
  | nil => exact absurd rfl hne
  | cons c cs =>
    unfold koreanFind
    rw [h]

lemma plainDateConstrain_of_valid (d : PlainDate) (hv : validDate d) :
    plainDateConstrain d.year d.month d.day = d := by
  obtain ⟨hy, hm1, hm2, hd1, hd2⟩ := hv
  show (⟨d.year, clampNat 1 12 d.month,
    clampNat 1 (daysInMonth d.year (clampNat 1 12 d.month)) d.day⟩ :
      PlainDate) = d
  have hm : clampNat 1 12 d.month = d.month := by
    unfold clampNat
    split_ifs <;> omega
  rw [hm]
  have hd : clampNat 1 (daysInMonth d.year d.month) d.day = d.day := by
    unfold clampNat
    split_ifs <;> omega
  rw [hd]

lemma parseFlexible_korean (pd : PlainDate) (hv : validDate pd)
    (h9999 : pd.year ≤ 9999) (cy : Nat) :
    parseFlexibleDateString
      (String.mk (padNat 4 pd.year ++
        ('년' :: ' ' :: (natDigits pd.month ++
          ('월' :: ' ' :: (natDigits pd.day ++ ['일'])))))) cy =
      .ok (.plainDate pd) := by
  obtain ⟨hy, hm1, hm2, hd1, hd2⟩ := hv
  have hd31 : pd.day ≤ 31 := Nat.le_trans hd2 (daysInMonth_le_31 _ _)
  have hp4 : (10 : Nat) ^ 4 = 10000 := by norm_num
  have hp2 : (10 : Nat) ^ 2 = 100 := by norm_num
  have hYlen : (padNat 4 pd.year).length = 4 :=
    padNat_length 4 pd.year (by omega) (by omega)
  have hYd := padNat_all_isDigit 4 pd.year
  have hMod := natDigits_all_isDigit pd.month
  have hDdd := natDigits_all_isDigit pd.day
  have hMo1 : 1 ≤ (natDigits pd.month).length := natDigits_length_pos pd.month
  have hMo2 : (natDigits pd.month).length ≤ 2 :=
    natDigits_length_le 2 pd.month (by omega) (by omega)
  have hDd1 : 1 ≤ (natDigits pd.day).length := natDigits_length_pos pd.day
  have hDd2 : (natDigits pd.day).length ≤ 2 :=
    natDigits_length_le 2 pd.day (by omega) (by omega)
  obtain ⟨y1, y2, y3, y4, hY4⟩ := length_eq_four (padNat 4 pd.year) hYlen
  have hy1d : y1.isDigit = true := by
    have := hYd y1
    rw [hY4] at this
    exact this (by simp)
  have hy2d : y2.isDigit = true := by
    have := hYd y2
    rw [hY4] at this
    exact this (by simp)
  have hy3d : y3.isDigit = true := by
    have := hYd y3
    rw [hY4] at this
    exact this (by simp)
  have hy4d : y4.isDigit = true := by
    have := hYd y4
    rw [hY4] at this
    exact this (by simp)
  have hshape : ([y1, y2, y3, y4] : List Char) ++
      ('년' :: ' ' :: (natDigits pd.month ++
        ('월' :: ' ' :: (natDigits pd.day ++ ['일'])))) =
      y1 :: ((y2 :: y3 :: y4 :: '년' :: ' ' :: (natDigits pd.month ++
        ('월' :: ' ' :: natDigits pd.day))) ++ ['일']) := by
    simp [List.append_assoc]
  have htrim : trimChars (padNat 4 pd.year ++
      ('년' :: ' ' :: (natDigits pd.month ++
        ('월' :: ' ' :: (natDigits pd.day ++ ['일']))))) =
      padNat 4 pd.year ++
      ('년' :: ' ' :: (natDigits pd.month ++
        ('월' :: ' ' :: (natDigits pd.day ++ ['일'])))) := by
    rw [hY4, hshape]
    exact trimChars_sandwich y1 _ '일'
      (isWSChar_false_of_isDigit y1 hy1d) (by decide)
  have hT : (padNat 4 pd.year ++
      ('년' :: ' ' :: (natDigits pd.month ++
        ('월' :: ' ' :: (natDigits pd.day ++ ['일']))))).contains 'T' =
      false := by
    apply contains_eq_false_of_not_mem
    intro hmem
    rcases korean_chars_classify pd 'T' hmem with hdg | (h | h | h | h) <;>
      first
      | exact absurd hdg (by decide)
      | exact absurd h (by decide)
  have hdash : dashRegexMatch (padNat 4 pd.year ++
      ('년' :: ' ' :: (natDigits pd.month ++
        ('월' :: ' ' :: (natDigits pd.day ++ ['일']))))) = none := by
    unfold dashRegexMatch
    rw [match3Groups_sep_mismatch '-' '년' (padNat 4 pd.year) _ hYd
      (by decide) (by decide)]
  have hmatch : koreanMatchAt (padNat 4 pd.year ++
      ('년' :: ' ' :: (natDigits pd.month ++
        ('월' :: ' ' :: (natDigits pd.day ++ ['일']))))) =
      some (pd.year, pd.month, pd.day) := by
    rw [hY4, show ([y1, y2, y3, y4] : List Char) ++
      ('년' :: ' ' :: (natDigits pd.month ++
        ('월' :: ' ' :: (natDigits pd.day ++ ['일'])))) =
      y1 :: y2 :: y3 :: y4 ::
        ('년' :: ' ' :: (natDigits pd.month ++
          ('월' :: ' ' :: (natDigits pd.day ++ ['일'])))) from rfl]
    rw [koreanMatchAt_eval y1 y2 y3 y4 (natDigits pd.month) (natDigits pd.day)
      hy1d hy2d hy3d hy4d hMo1 hMo2 hMod hDd1 hDd2 hDdd]
    rw [← hY4, natFromDigits_padNat, natFromDigits_natDigits,
      natFromDigits_natDigits]
  have hfind : koreanFind (padNat 4 pd.year ++
      ('년' :: ' ' :: (natDigits pd.month ++
        ('월' :: ' ' :: (natDigits pd.day ++ ['일']))))) =
      some (pd.year, pd.month, pd.day) := by
    apply koreanFind_head _ _ _ hmatch
    rw [hY4]
    simp
  show parseFlexibleTrimmed (centuryOf cy) _
    (trimChars (padNat 4 pd.year ++
      ('년' :: ' ' :: (natDigits pd.month ++
        ('월' :: ' ' :: (natDigits pd.day ++ ['일'])))))) = _
  rw [htrim]
  unfold parseFlexibleTrimmed
  rw [hT]
  simp only [Bool.false_and, Bool.false_eq_true, if_false]
  rw [hdash]
  dsimp only
  rw [hfind]
  dsimp only
  rw [plainDateConstrain_of_valid pd ⟨hy, hm1, hm2, hd1, hd2⟩]

/-- C7 counterexample: the calendar date 12345-01-02 is accepted by
`formatKorean` (output "12345년 1월 2일"), but the unanchored Korean
regex re-parses that string by matching from its second character,
capturing only the last four year digits, so the re-parsed value is
2345-01-02 and re-formatting yields "2345년 1월 2일", a different
string: `formatKorean (parse (formatKorean d)) ≠ formatKorean d`. -/
theorem formatKorean_reparse_counterexample :
    formatKorean (.plainDate ⟨12345, 1, 2⟩) 2024 = .ok ("12345년 1월 2일") ∧
    parseFlexibleDateString ("12345년 1월 2일") 2024 =
      .ok (.plainDate ⟨2345, 1, 2⟩) ∧
    formatKorean (.plainDate ⟨2345, 1, 2⟩) 2024 = .ok ("2345년 1월 2일") ∧
    ("2345년 1월 2일" : String) ≠ ("12345년 1월 2일" : String) :=
  ⟨by decide, by decide, by decide, by decide⟩

/-- C7 (amended): for every typed date value whose calendar date is valid
with a four-digit year (`year ≤ 9999`), `formatKorean` succeeds, its
output string re-parses (under any current year) to exactly that
calendar date, and `formatKorean` of the re-parsed value reproduces the
same string, i.e. `formatKorean ∘ parse ∘ formatKorean = formatKorean`
on this domain.  The restriction to `year ≤ 9999` is necessary:
`formatKorean_reparse_counterexample` exhibits an accepted five-digit
year on which the round trip changes the string. -/
theorem formatKorean_reparse_idempotent (v : TemporalValue)
    (hv : validDate v.toPlainDate) (h9999 : v.toPlainDate.year ≤ 9999)
    (cy cy2 : Nat) :
    ∃ s : String,
      formatKorean (DateInput.ofValue v) cy = .ok s ∧
      parseFlexibleDateString s cy2 = .ok (.plainDate v.toPlainDate) ∧
      formatKorean (.plainDate v.toPlainDate) cy2 = .ok s := by
  refine ⟨String.mk (padNat 4 v.toPlainDate.year ++
    ('년' :: ' ' :: (natDigits v.toPlainDate.month ++
      ('월' :: ' ' :: (natDigits v.toPlainDate.day ++ ['일']))))),
    ?_, ?_, ?_⟩
  · cases v with
    | plainDate d =>
      have hred : formatKorean (DateInput.ofValue (TemporalValue.plainDate d))
          cy = Except.ok (formatCustom (TemporalValue.plainDate d)
            ("YYYY년 M월 D일")) := rfl
      rw [hred, formatCustom_korean]
    | plainDateTime dt =>
      have hred : formatKorean
          (DateInput.ofValue (TemporalValue.plainDateTime dt)) cy =
          Except.ok (formatCustom (TemporalValue.plainDateTime dt)
            ("YYYY년 M월 D일")) := rfl
      rw [hred, formatCustom_korean]
    | zonedDateTime z =>
      have hred : formatKorean
          (DateInput.ofValue (TemporalValue.zonedDateTime z)) cy =
          Except.ok (formatCustom (TemporalValue.zonedDateTime z)
            ("YYYY년 M월 D일")) := rfl
      rw [hred, formatCustom_korean]
  · exact parseFlexible_korean v.toPlainDate hv h9999 cy2
  · have hred : formatKorean (DateInput.plainDate v.toPlainDate) cy2 =
        Except.ok (formatCustom (TemporalValue.plainDate v.toPlainDate)
          ("YYYY년 M월 D일")) := rfl
    rw [hred, formatCustom_korean]
    exact rfl

/-- Witness for C7 (amended) at the value 2024-01-15. -/
theorem formatKorean_reparse_idempotent_witness :
    (validDate (TemporalValue.plainDate ⟨2024, 1, 15⟩).toPlainDate ∧
      (TemporalValue.plainDate
        (⟨2024, 1, 15⟩ : PlainDate)).toPlainDate.year ≤ 9999) ∧
    ∃ s : String,
      formatKorean (DateInput.ofValue (.plainDate ⟨2024, 1, 15⟩)) 2025 =
        .ok s ∧
      parseFlexibleDateString s 2026 =
        .ok (.plainDate (TemporalValue.plainDate
          (⟨2024, 1, 15⟩ : PlainDate)).toPlainDate) ∧
      formatKorean (.plainDate (TemporalValue.plainDate
          (⟨2024, 1, 15⟩ : PlainDate)).toPlainDate) 2026 = .ok s :=
  ⟨⟨by decide, by decide⟩,
    formatKorean_reparse_idempotent (.plainDate ⟨2024, 1, 15⟩)
      (by decide) (by decide) 2025 2026⟩
